import Mathlib

/-! Audio mixing coordination layer (`src/audio/audio.cpp`)

A shallow embedding of `AudioPrivate` (track set, ME channel, global volumes,
the ME-watch state machine) and of the `Audio` facade operations.

Conventions of the embedding

* C++ `int` is `Int`; the result of `int` multiplication is wrapped to 32 bits
  (`wrapInt32`), `/` on `int` is `Int.tdiv` (truncation towards zero).
* C++ `float` and `double` values are the rationals they denote; every `float`
  operation rounds its exact result with `f32`, every `double` operation with `f64`
  (round to nearest, ties to even), in the order the C++ expression prescribes. The
  exponent range is not bounded: infinities, NaN and the coarser rounding of
  subnormal results are outside the embedding, and statements about arithmetic carry
  hypotheses that keep the values away from them.
* The conversion `float → int` is truncation towards zero, undefined outside `int`.
* A pointer into `bgmTracks` is the index of the track in the list.
* Code whose behaviour is undefined in C++ (`bgmTracks[0]` on an empty vector,
  integer division by zero, a `float` out of the range of `int`) yields `none`.
* A thrown `Exception` is `Except.error`; facade operations return the
  outcome together with the state reached when the call ends.
* Every command sent to a stream handle is appended to the handle's
  `issued` log, so that "which track received which command" is observable.
-/

namespace Audio

/-! ## Machine arithmetic -/

/-- The value of a 32-bit `int` expression whose mathematical value is `z`: two's
complement wrap-around modulo `2 ^ 32`. -/
def wrapInt32 (z : Int) : Int := (z + 2147483648) % 4294967296 - 2147483648

/-- Round to the nearest integer, ties to the even one. -/
def roundHalfEven (t : ℚ) : Int :=
  if t - ⌊t⌋ < 1 / 2 then ⌊t⌋
  else if 1 / 2 < t - ⌊t⌋ then ⌊t⌋ + 1
  else if ⌊t⌋ % 2 = 0 then ⌊t⌋ else ⌊t⌋ + 1

/-- The unit in the last place of a positive `x` for a significand of `prec` bits. -/
def ulp (prec : Nat) (x : ℚ) : ℚ := 2 ^ (Int.log 2 x - prec + 1)

/-- Round a nonnegative `x` to the nearest number with a significand of `prec` bits,
ties to even. -/
def roundPos (prec : Nat) (x : ℚ) : ℚ :=
  if x = 0 then 0 else (roundHalfEven (x / ulp prec x) : ℚ) * ulp prec x

/-- Round to the nearest number with a significand of `prec` bits, ties to even (the
IEEE 754 default rounding, exponent range unbounded). -/
@[irreducible]
def roundSig (prec : Nat) (x : ℚ) : ℚ :=
  if x < 0 then - roundPos prec (-x) else roundPos prec x

/-- The `float` (binary32) nearest to `x`: the result of a `float` operation whose exact
result is `x`, and of the narrowing of a `double` to `float`. -/
def f32 (x : ℚ) : ℚ := roundSig 24 x

/-- The `double` (binary64) nearest to `x`. -/
def f64 (x : ℚ) : ℚ := roundSig 53 x

/-! ## Stream handles -/

/-- Playback state reported by `stream.queryState()`. -/
inductive State
  | Stopped
  | Paused
  | Playing
  deriving DecidableEq, Repr

/-- Volume tiers of `AudioStream::getVolume` / `AudioStream::setVolume`. -/
inductive VolumeType
  | Base
  | BaseRatio
  | External
  deriving DecidableEq, Repr

/-- Commands a stream handle can receive from the facade or from the watcher. -/
inductive Command
  | play (filename : String) (volume : Int) (pitch : Int) (pos : ℚ)
  | stop
  | fadeOut (time : Int)
  | setBaseRatio (value : ℚ)
  | streamPlay
  | streamPause
  deriving DecidableEq, Repr

/-- Modelled from the spec: the `AudioStream` handle of `audiostream.h`, which is
not part of the sources. It carries the `Base` and `External` multipliers, the
flags `extPaused` and `noResumeStop`, the playback state owned by the stream
engine, the offset the engine would report, and the log of issued commands. -/
structure AudioStream where
  base : ℚ
  ext : ℚ
  extPaused : Bool
  noResumeStop : Bool
  state : State
  offset : ℚ
  issued : List Command
  deriving DecidableEq, Repr

namespace AudioStream

/-- Modelled from the spec: a handle as created at subsystem start (both multipliers
at 1, no flag set, nothing playing); the constructor of `AudioStream` is not part
of the sources. -/
def fresh : AudioStream :=
  { base := 1, ext := 1, extPaused := false, noResumeStop := false,
    state := State.Stopped, offset := 0, issued := [] }

/-- Modelled from the spec: `getVolume(tier)` of `audiostream.h`; `Base` and `External`
read the stored multiplier, `BaseRatio` is the combined `Base × External`, a `float`
product. -/
def getVolume (t : AudioStream) : VolumeType → ℚ
  | VolumeType.Base => t.base
  | VolumeType.External => t.ext
  | VolumeType.BaseRatio => f32 (t.base * t.ext)

/-- Modelled from the spec: `setVolume(tier, value)` of `audiostream.h`; `Base` and
`External` store the value unchanged (no clamping). The spec does not say what a
write to `BaseRatio` stores, so that write is only recorded. -/
def setVolume (t : AudioStream) : VolumeType → ℚ → AudioStream
  | VolumeType.Base, v => { t with base := v }
  | VolumeType.External, v => { t with ext := v }
  | VolumeType.BaseRatio, v => { t with issued := t.issued ++ [Command.setBaseRatio v] }

/-- Modelled from the spec: `AudioStream::play(file, volume, pitch, pos)` of
`audiostream.cpp` (absent); the command is recorded on the handle. -/
def play (t : AudioStream) (filename : String) (volume pitch : Int) (pos : ℚ) : AudioStream :=
  { t with issued := t.issued ++ [Command.play filename volume pitch pos] }

/-- Modelled from the spec: `AudioStream::stop()` of `audiostream.cpp` (absent); the
command is recorded on the handle. -/
def stop (t : AudioStream) : AudioStream :=
  { t with issued := t.issued ++ [Command.stop] }

/-- Modelled from the spec: `AudioStream::fadeOut(time)` of `audiostream.cpp` (absent);
the command is recorded on the handle. -/
def fadeOut (t : AudioStream) (time : Int) : AudioStream :=
  { t with issued := t.issued ++ [Command.fadeOut time] }

/-- Modelled from the spec: `AudioStream::playingOffset()` of `audiostream.cpp` (absent);
the seek position reported by the engine. -/
def playingOffset (t : AudioStream) : ℚ := t.offset

/-- Modelled from the spec: `stream.play()` of the stream engine (absent); the stream
is Playing afterwards (a Paused stream resumes, a Stopped one starts). -/
def streamPlay (t : AudioStream) : AudioStream :=
  { t with state := State.Playing, issued := t.issued ++ [Command.streamPlay] }

/-- Modelled from the spec: `stream.pause()` of the stream engine (absent); a Playing
stream becomes Paused, any other state is kept. -/
def streamPause (t : AudioStream) : AudioStream :=
  { t with state := if t.state = State.Playing then State.Paused else t.state,
           issued := t.issued ++ [Command.streamPause] }

end AudioStream

/-! ## `AudioPrivate` -/

/-- The `MeWatchState` enum. -/
inductive MeWatchState
  | MeNotPlaying
  | BgmFadingOut
  | MePlaying
  | BgmFadingIn
  deriving DecidableEq, Repr

/-- The fields of `struct AudioPrivate` the facade and the watcher work on;
`state` is `meWatch.state`. -/
structure AudioPrivate where
  global_bgm_volume : Int
  global_sfx_volume : Int
  bgmTracks : List AudioStream
  bgs : AudioStream
  me : AudioStream
  state : MeWatchState
  deriving DecidableEq, Repr

/-- The constructor `AudioPrivate(rtData)` for `rtData.config.BGM.trackCount = trackCount`. -/
def AudioPrivate.init (trackCount : Nat) : AudioPrivate :=
  { global_bgm_volume := 100
    global_sfx_volume := 100
    bgmTracks := List.replicate trackCount AudioStream.fresh
    bgs := AudioStream.fresh
    me := AudioStream.fresh
    state := MeWatchState.MeNotPlaying }

/-- The `Exception(Exception::MKXPError, "requested BGM track %d out of range (max: %d)", …)`
thrown by `getTrackByIndex`, with its two format arguments. -/
structure Exception where
  index : Int
  max : Int
  deriving DecidableEq, Repr

/-- `AudioPrivate::getTrackByIndex`: the resolved position in `bgmTracks`, or the exception. -/
def getTrackByIndex (p : AudioPrivate) (index : Int) : Except Exception Nat :=
  let index := if index < 0 then 0 else index
  if index > (p.bgmTracks.length : Int) - 1 then
    Except.error { index := index, max := (p.bgmTracks.length : Int) - 1 }
  else
    Except.ok index.toNat

/-- Apply `f` to the track at position `i` (a call through the pointer returned by
`getTrackByIndex`). -/
def AudioPrivate.onTrack (p : AudioPrivate) (i : Nat) (f : AudioStream → AudioStream) :
    AudioPrivate :=
  { p with bgmTracks := p.bgmTracks.modify f i }

/-- Conversion `float → int`: truncation towards zero. -/
def truncToInt (q : ℚ) : Int := Int.tdiv q.num q.den

/-- Conversion `float → int` as a C++ expression: truncation towards zero, undefined
(`none`) when the truncated value is not an `int`. -/
def floatToInt (q : ℚ) : Option Int :=
  if -2147483648 ≤ truncToInt q ∧ truncToInt q ≤ 2147483647 then some (truncToInt q) else none

/-! ## The `Audio` facade -/

/-- The loop of `bgmPlay` for the sentinel, from index `i` on: `bgmTracks[i]->stop()`
unless `i == 0`. -/
def stopNonPrimary : Nat → List AudioStream → List AudioStream
  | _, [] => []
  | i, t :: rest => (if i = 0 then t else t.stop) :: stopNonPrimary (i + 1) rest

/-- `Audio::bgmPlay(filename, volume, pitch, pos, track)`. -/
def bgmPlay (filename : String) (volume pitch : Int) (pos : ℚ) (track : Int)
    (p : AudioPrivate) : Except Exception Unit × AudioPrivate :=
  let p1 : AudioPrivate :=
    if track = -127 then { p with bgmTracks := stopNonPrimary 0 p.bgmTracks } else p
  let track : Int := if track = -127 then 0 else track
  match getTrackByIndex p1 track with
  | Except.error e => (Except.error e, p1)
  | Except.ok k =>
    (Except.ok (),
      p1.onTrack k
        (fun t =>
          t.play filename (Int.tdiv (wrapInt32 (volume * p1.global_bgm_volume)) 100) pitch pos))

/-- `Audio::bgmStop(track)`. -/
def bgmStop (track : Int) (p : AudioPrivate) : Except Exception Unit × AudioPrivate :=
  if track = -127 then
    (Except.ok (), { p with bgmTracks := p.bgmTracks.map AudioStream.stop })
  else
    match getTrackByIndex p track with
    | Except.error e => (Except.error e, p)
    | Except.ok k => (Except.ok (), p.onTrack k AudioStream.stop)

/-- `Audio::bgmFade(time, track)`. -/
def bgmFade (time : Int) (track : Int) (p : AudioPrivate) :
    Except Exception Unit × AudioPrivate :=
  if track = -127 then
    (Except.ok (), { p with bgmTracks := p.bgmTracks.map (fun t => t.fadeOut time) })
  else
    match getTrackByIndex p track with
    | Except.error e => (Except.error e, p)
    | Except.ok k => (Except.ok (), p.onTrack k (fun t => t.fadeOut time))

/-- The tail of `Audio::bgmGetVolume` once the handle's volume is read:
`int track_volume = volume * 100; return (track_volume * 100 / global_bgm_volume);`.
The product `volume * 100` is a `float` product, converted to `int`. -/
def bgmGetVolumeTail (p : AudioPrivate) (handleVolume : ℚ) :
    Option (Except Exception Int × AudioPrivate) :=
  match floatToInt (f32 (handleVolume * f32 100)) with
  | none => none
  | some track_volume =>
    if p.global_bgm_volume = 0 ∨
        (wrapInt32 (track_volume * 100) = -2147483648 ∧ p.global_bgm_volume = -1) then none
    else
      some (Except.ok (Int.tdiv (wrapInt32 (track_volume * 100)) p.global_bgm_volume), p)

/-- `Audio::bgmGetVolume(track)`; `none` where the C++ is undefined (`bgmTracks[0]` of an
empty vector, a `float` out of the range of `int`, `int` division by zero or of `INT_MIN`
by `-1`). -/
def bgmGetVolume (track : Int) (p : AudioPrivate) :
    Option (Except Exception Int × AudioPrivate) :=
  if track = -127 then
    match p.bgmTracks with
    | [] => none
    | t :: _ => bgmGetVolumeTail p (t.getVolume VolumeType.BaseRatio)
  else
    match getTrackByIndex p track with
    | Except.error e => some (Except.error e, p)
    | Except.ok k =>
      match p.bgmTracks.get? k with
      | none => none
      | some t => bgmGetVolumeTail p (t.getVolume VolumeType.Base)

/-- `Audio::bgmSetVolume(volume, track)`; `float vol = (volume * global) / 100.0` is an
`int` product, a `double` division and a narrowing to `float`. -/
def bgmSetVolume (volume : Int) (track : Int) (p : AudioPrivate) :
    Except Exception Unit × AudioPrivate :=
  let vol : ℚ := f32 (f64 ((wrapInt32 (volume * p.global_bgm_volume) : ℚ) / 100))
  if track = -127 then
    (Except.ok (),
      { p with bgmTracks := p.bgmTracks.map (fun t => t.setVolume VolumeType.BaseRatio vol) })
  else
    match getTrackByIndex p track with
    | Except.error e => (Except.error e, p)
    | Except.ok k => (Except.ok (), p.onTrack k (fun t => t.setVolume VolumeType.Base vol))

/-- `Audio::bgmPos(track)`; `none` only if the resolved pointer does not exist. -/
def bgmPos (track : Int) (p : AudioPrivate) : Option (Except Exception ℚ × AudioPrivate) :=
  match getTrackByIndex p track with
  | Except.error e => some (Except.error e, p)
  | Except.ok k =>
    match p.bgmTracks.get? k with
    | none => none
    | some t => some (Except.ok t.playingOffset, p)

/-- `Audio::getGlobalBGM_Volume()`. -/
def getGlobalBGM_Volume (p : AudioPrivate) : Int := p.global_bgm_volume

/-- `Audio::getGlobalSFX_Volume()`. -/
def getGlobalSFX_Volume (p : AudioPrivate) : Int := p.global_sfx_volume

/-- `fadeOutStep = 1.f / (200 / AUDIO_SLEEP)`: the inner division is on `int`, its result
is converted to `float` and the outer division is a `float` division. When
`200 / AUDIO_SLEEP` is 0 the C++ value is `+inf`, which the embedding does not represent;
the statements about fades assume `1 ≤ 200 / AUDIO_SLEEP`. -/
def fadeOutStep (audioSleep : Nat) : ℚ := f32 (1 / f32 ((200 / audioSleep : Nat) : ℚ))

/-- `fadeInStep = 1.f / (1000 / AUDIO_SLEEP)`, computed like `fadeOutStep`; the statements
about fades assume `1 ≤ 1000 / AUDIO_SLEEP`. -/
def fadeInStep (audioSleep : Nat) : ℚ := f32 (1 / f32 ((1000 / audioSleep : Nat) : ℚ))

/-- The `for` loop of the `BgmFadingOut` case. `done` is `bgmTracks[0..i)` as already
updated in this tick, the second list is `bgmTracks[i..)`, the flag is `shouldBreak`. -/
def fadeOutLoop (step : ℚ) :
    List AudioStream → List AudioStream → Bool → List AudioStream × Bool
  | done, [], shouldBreak => (done, shouldBreak)
  | done, track :: rest, shouldBreak =>
    let vol : ℚ := f32 (track.getVolume VolumeType.External - step)
    if vol < 0 ∨ track.state ≠ State.Playing then
      let track1 := (track.setVolume VolumeType.External 0).streamPause
      let playingTracks :=
        (done ++ track1 :: rest).filter (fun t => decide (t.state = State.Playing))
      let shouldBreak1 :=
        if playingTracks.length ≤ 0 ∧ shouldBreak = false then true else shouldBreak
      fadeOutLoop step (done ++ [track1]) rest shouldBreak1
    else
      fadeOutLoop step (done ++ [track.setVolume VolumeType.External vol]) rest shouldBreak

/-- The body of the `for` loop of the `MePlaying` case on one track: the updated track
and the value it writes to `meWatch.state`. -/
def mePlayingBody (track : AudioStream) : AudioStream × MeWatchState :=
  let track := { track with extPaused := false }
  let sState := track.state
  if sState = State.Paused then
    (track.streamPlay, MeWatchState.BgmFadingIn)
  else
    let track := track.setVolume VolumeType.External 1
    let track := if track.noResumeStop = false then track.streamPlay else track
    (track, MeWatchState.MeNotPlaying)

/-- The `for` loop of the `MePlaying` case, threading `meWatch.state`. -/
def mePlayingLoop : List AudioStream → MeWatchState → List AudioStream × MeWatchState
  | [], st => ([], st)
  | track :: rest, _ =>
    let r := mePlayingBody track
    let rs := mePlayingLoop rest r.2
    (r.1 :: rs.1, rs.2)

/-- One iteration of the `while` loop of `AudioPrivate::meWatchFun` past the termination
check: the `switch` on `meWatch.state`. The ME state is read from `p.me`. The result is
`none` where the C++ is undefined (`bgmTracks[0]` of an empty vector). -/
def meWatchTick (audioSleep : Nat) (p : AudioPrivate) : Option AudioPrivate :=
  match p.state with
  | MeWatchState.MeNotPlaying =>
    if p.me.state = State.Playing then
      some { p with bgmTracks := p.bgmTracks.map (fun t => { t with extPaused := true }),
                    state := MeWatchState.BgmFadingOut }
    else some p
  | MeWatchState.BgmFadingOut =>
    if p.me.state ≠ State.Playing then
      some { p with state := MeWatchState.BgmFadingIn }
    else
      let r := fadeOutLoop (fadeOutStep audioSleep) [] p.bgmTracks false
      if r.2 = true then some { p with bgmTracks := r.1, state := MeWatchState.MePlaying }
      else some { p with bgmTracks := r.1 }
  | MeWatchState.MePlaying =>
    if p.me.state ≠ State.Playing then
      let r := mePlayingLoop p.bgmTracks p.state
      some { p with bgmTracks := r.1, state := r.2 }
    else some p
  | MeWatchState.BgmFadingIn =>
    match p.bgmTracks with
    | [] => none
    | primary :: _ =>
      if primary.state = State.Stopped then
        some { p with bgmTracks := p.bgmTracks.map (fun t => t.setVolume VolumeType.External 1),
                      state := MeWatchState.MeNotPlaying }
      else if p.me.state = State.Playing then
        some { p with bgmTracks := p.bgmTracks.map (fun t => { t with extPaused := true }),
                      state := MeWatchState.BgmFadingOut }
      else
        let vol : ℚ := f32 (primary.getVolume VolumeType.External + fadeInStep audioSleep)
        let full : Bool := decide (vol ≥ 1)
        let vol : ℚ := if full then 1 else vol
        some { p with bgmTracks := p.bgmTracks.map (fun t => t.setVolume VolumeType.External vol),
                      state := if full then MeWatchState.MeNotPlaying else p.state }

/-- Run `k` watcher ticks with no facade call and no engine event in between. -/
def meWatchRun (audioSleep : Nat) : Nat → AudioPrivate → Option AudioPrivate
  | 0, p => some p
  | k + 1, p => (meWatchTick audioSleep p).bind (meWatchRun audioSleep k)

/-! ## Auxiliary definitions for the statements about the watcher -/

/-- The test of the `BgmFadingOut` loop body on one track: the decremented `External`
(a `float` difference) is negative or the stream is not Playing. -/
def settles (step : ℚ) (t : AudioStream) : Prop :=
  f32 (t.getVolume VolumeType.External - step) < 0 ∨ t.state ≠ State.Playing

instance (step : ℚ) (t : AudioStream) : Decidable (settles step t) := by
  unfold settles
  infer_instance

/-- What the `BgmFadingOut` loop body does to one track. -/
def fadeOutBody (step : ℚ) (t : AudioStream) : AudioStream :=
  if settles step t then (t.setVolume VolumeType.External 0).streamPause
  else t.setVolume VolumeType.External (f32 (t.getVolume VolumeType.External - step))

/-- Overwrite the playback states of the leading tracks by the given ones; tracks beyond
the given list keep their state. Nothing but the playback state changes. -/
def setStates : List AudioStream → List State → List AudioStream
  | [], _ => []
  | t :: ts, [] => t :: ts
  | t :: ts, s :: ss => { t with state := s } :: setStates ts ss

/-- What happens between two looks at the shared state: a watcher tick, or the stream
engine changing the playback state of the ME stream and of the tracks. -/
inductive WatchEvent
  | tick
  | engine (me : State) (tracks : List State)
  deriving DecidableEq, Repr

/-- Modelled from the spec: the playback state is owned by the stream engine and read by the
watcher through `queryState()` only; an engine event replaces the playback states and
leaves every other field (volumes, flags, issued commands, watcher state) as it is. -/
def engineEvent (me : State) (tracks : List State) (p : AudioPrivate) : AudioPrivate :=
  { p with me := { p.me with state := me }, bgmTracks := setStates p.bgmTracks tracks }

/-- Run a sequence of watcher ticks and engine events, first event first. -/
def runEvents (audioSleep : Nat) : List WatchEvent → AudioPrivate → Option AudioPrivate
  | [], p => some p
  | WatchEvent.tick :: es, p => (meWatchTick audioSleep p).bind (runEvents audioSleep es)
  | WatchEvent.engine me tracks :: es, p => runEvents audioSleep es (engineEvent me tracks p)

/-- The `External` value after `k` `BgmFadingOut` ticks without settling, starting from 1:
each tick stores the `float` difference `vol - fadeOutStep`. -/
def fadeOutSeq (step : ℚ) : Nat → ℚ
  | 0 => 1
  | k + 1 => f32 (fadeOutSeq step k - step)

/-- The `External` value after `k` `BgmFadingIn` ticks without reaching 1, starting from 0:
each tick stores the `float` sum `vol + fadeInStep`. -/
def fadeInSeq (step : ℚ) : Nat → ℚ
  | 0 => 0
  | k + 1 => f32 (fadeInSeq step k + step)

/-- `A / D` rounded to the nearest natural number, ties to even. -/
def roundNatDiv (A D : Nat) : Nat :=
  if 2 * (A % D) < D then A / D
  else if D < 2 * (A % D) then A / D + 1
  else if (A / D) % 2 = 0 then A / D else A / D + 1

/-- Rounding of a natural number `Y ≥ 2 ^ (23 + sh)` to 24 significant bits, the search
for its binary exponent starting at `23 + sh`. -/
def f32GridAux : Nat → Nat → Nat → Nat
  | 0, sh, Y => roundNatDiv Y (2 ^ sh) * 2 ^ sh
  | fuel + 1, sh, Y =>
    if Y < 2 ^ (24 + sh) then roundNatDiv Y (2 ^ sh) * 2 ^ sh else f32GridAux fuel (sh + 1) Y

/-- The `float` nearest to `Y * 2 ^ j` is `f32Grid Y * 2 ^ j`: rounding on the numerators
of a binary grid. -/
def f32Grid (Y : Nat) : Nat := if Y < 2 ^ 24 then Y else f32GridAux Y 1 Y

/-- The numerators, over `2 ^ 30`, of the fade-in values for a step of numerator `S`. -/
def fadeInGrid (S : Nat) : Nat → Nat
  | 0 => 0
  | k + 1 => f32Grid (fadeInGrid S k + S)

/-! ## Sample states -/

/-- A fresh handle whose stream is in the given playback state, at the given `External`. -/
def sampleTrack (st : State) (e : ℚ) : AudioStream :=
  { AudioStream.fresh with state := st, ext := e }

/-- Two tracks Playing at `External = 1`, the ME stream Playing, the watcher idle. -/
def duckingStart : AudioPrivate :=
  { AudioPrivate.init 2 with
    bgmTracks := [sampleTrack State.Playing 1, sampleTrack State.Playing 1]
    me := sampleTrack State.Playing 1 }

/-- Two tracks Paused at `External = 0`, the ME stream Stopped, the watcher in `MePlaying`. -/
def fadeInStart : AudioPrivate :=
  { AudioPrivate.init 2 with
    bgmTracks := [sampleTrack State.Paused 0, sampleTrack State.Paused 0]
    state := MeWatchState.MePlaying }

/-- One track Stopped with `noResumeStop` set, the ME stream Stopped, the watcher in
`MePlaying`. -/
def stoppedStart : AudioPrivate :=
  { AudioPrivate.init 1 with
    bgmTracks := [{ sampleTrack State.Stopped 0 with noResumeStop := true }]
    state := MeWatchState.MePlaying }

/-- The watcher in `BgmFadingIn` half way, the primary track Stopped, the second track
Playing, the ME stream Playing. -/
def interruptedStart : AudioPrivate :=
  { AudioPrivate.init 2 with
    bgmTracks := [sampleTrack State.Stopped (1 / 2), sampleTrack State.Playing (1 / 2)]
    me := sampleTrack State.Playing 1
    state := MeWatchState.BgmFadingIn }

/-- The watcher in `BgmFadingIn` half way, the primary track Playing, the second track
Paused, the ME stream Playing again. -/
def retriggerStart : AudioPrivate :=
  { AudioPrivate.init 2 with
    bgmTracks := [sampleTrack State.Playing (1 / 2), sampleTrack State.Paused (1 / 2)]
    me := sampleTrack State.Playing 1
    state := MeWatchState.BgmFadingIn }

/-- The watcher in `BgmFadingOut` with the ME stream Playing: the first track is half way
down and Playing, the second has stopped on its own, the third is at 0 and Playing. -/
def mixedFadeOut : AudioPrivate :=
  { AudioPrivate.init 3 with
    bgmTracks :=
      [sampleTrack State.Playing (1 / 2), sampleTrack State.Stopped (1 / 2),
        sampleTrack State.Playing 0]
    me := sampleTrack State.Playing 1
    state := MeWatchState.BgmFadingOut }

/-- The watcher in `MePlaying` with the ME stream Stopped: the first track is Paused, the
last track is Stopped. -/
def disagreeingStart : AudioPrivate :=
  { AudioPrivate.init 2 with
    bgmTracks := [sampleTrack State.Paused 0, sampleTrack State.Stopped 0]
    state := MeWatchState.MePlaying }

/-- A short stinger: the ME starts while the single track plays, is seen by one tick,
ends before the next tick, and two more ticks follow. -/
def shortStinger : List WatchEvent :=
  [WatchEvent.engine State.Playing [State.Playing], WatchEvent.tick,
    WatchEvent.engine State.Stopped [State.Playing], WatchEvent.tick, WatchEvent.tick]

/-! ## Rounding -/

theorem roundHalfEven_cases (t : ℚ) :
    roundHalfEven t = ⌊t⌋ ∨ roundHalfEven t = ⌊t⌋ + 1 := by
  unfold roundHalfEven
  split_ifs <;> simp

theorem roundHalfEven_abs_sub_le (t : ℚ) : |(roundHalfEven t : ℚ) - t| ≤ 1 / 2 := by
  have h1 := Int.floor_le t
  have h2 := Int.lt_floor_add_one t
  unfold roundHalfEven
  split_ifs with a b c
  · rw [abs_le]; constructor <;> linarith
  · push_cast; rw [abs_le]; constructor <;> linarith
  · rw [abs_le]; constructor <;> linarith
  · push_cast; rw [abs_le]; constructor <;> linarith

theorem roundHalfEven_eq_of_abs_lt (t : ℚ) (m : Int) (h : |t - (m : ℚ)| < 1 / 2) :
    roundHalfEven t = m := by
  have h1 := roundHalfEven_abs_sub_le t
  have h2 : |((roundHalfEven t - m : Int) : ℚ)| < 1 := by
    push_cast
    have : (roundHalfEven t : ℚ) - m = ((roundHalfEven t : ℚ) - t) + (t - m) := by ring
    rw [this]
    calc |((roundHalfEven t : ℚ) - t) + (t - m)|
        ≤ |(roundHalfEven t : ℚ) - t| + |t - m| := abs_add _ _
      _ < 1 / 2 + 1 / 2 := by linarith
      _ = 1 := by norm_num
  have h3 : |roundHalfEven t - m| < 1 := by exact_mod_cast h2
  have h4 := Int.abs_lt_one_iff.mp h3
  omega

theorem roundHalfEven_intCast (z : Int) : roundHalfEven (z : ℚ) = z :=
  roundHalfEven_eq_of_abs_lt _ z (by simp)

theorem roundHalfEven_mono {s t : ℚ} (h : s ≤ t) : roundHalfEven s ≤ roundHalfEven t := by
  by_cases hf : ⌊s⌋ = ⌊t⌋
  · unfold roundHalfEven
    rw [hf]
    split_ifs <;> first | omega | (exfalso; linarith)
  · have hlt : ⌊s⌋ < ⌊t⌋ := lt_of_le_of_ne (Int.floor_mono h) hf
    rcases roundHalfEven_cases s with hs | hs <;> rcases roundHalfEven_cases t with ht | ht <;>
      omega

theorem ulp_pos (prec : Nat) (x : ℚ) : 0 < ulp prec x := by
  unfold ulp
  positivity

theorem two_zpow_log_le {x : ℚ} (hx : 0 < x) : (2 : ℚ) ^ Int.log 2 x ≤ x := by
  have h := Int.zpow_log_le_self Nat.one_lt_two hx
  simpa using h

theorem lt_two_zpow_log_succ (x : ℚ) : x < (2 : ℚ) ^ (Int.log 2 x + 1) := by
  have h := Int.lt_zpow_succ_log_self Nat.one_lt_two x
  simpa using h

theorem log_two_eq_of_bounds {x : ℚ} {e : Int} (hx : 0 < x) (h1 : (2 : ℚ) ^ e ≤ x)
    (h2 : x < (2 : ℚ) ^ (e + 1)) : Int.log 2 x = e := by
  have a : e ≤ Int.log 2 x := by
    rw [← Int.zpow_le_iff_le_log Nat.one_lt_two hx]
    simpa using h1
  have b : Int.log 2 x < e + 1 := by
    rw [← Int.lt_zpow_iff_log_lt Nat.one_lt_two hx]
    simpa using h2
  omega

theorem ulp_mul_pred (prec : Nat) (x : ℚ) :
    (2 : ℚ) ^ ((prec : Int) - 1) * ulp prec x = (2 : ℚ) ^ Int.log 2 x := by
  unfold ulp
  rw [← zpow_add₀ (two_ne_zero)]
  congr 1
  ring

theorem ulp_mul_prec (prec : Nat) (x : ℚ) :
    (2 : ℚ) ^ (prec : Int) * ulp prec x = (2 : ℚ) ^ (Int.log 2 x + 1) := by
  unfold ulp
  rw [← zpow_add₀ (two_ne_zero)]
  congr 1
  ring

theorem scaled_bounds (prec : Nat) {x : ℚ} (hx : 0 < x) :
    (2 : ℚ) ^ ((prec : Int) - 1) ≤ x / ulp prec x ∧ x / ulp prec x < (2 : ℚ) ^ (prec : Int) := by
  have hu := ulp_pos prec x
  constructor
  · rw [le_div_iff₀ hu, ulp_mul_pred]
    exact two_zpow_log_le hx
  · rw [div_lt_iff₀ hu, ulp_mul_prec]
    exact lt_two_zpow_log_succ x

theorem roundPos_zero (prec : Nat) : roundPos prec 0 = 0 := by
  simp [roundPos]

theorem roundPos_of_pos (prec : Nat) {x : ℚ} (hx : 0 < x) :
    roundPos prec x = (roundHalfEven (x / ulp prec x) : ℚ) * ulp prec x := by
  simp [roundPos, ne_of_gt hx]

theorem two_zpow_pred_cast {prec : Nat} (hp : 1 ≤ prec) :
    (((2 : Int) ^ (prec - 1) : Int) : ℚ) = (2 : ℚ) ^ ((prec : Int) - 1) := by
  have : ((prec : Int) - 1) = ((prec - 1 : Nat) : Int) := by omega
  rw [this, zpow_natCast]
  push_cast
  rfl

theorem two_zpow_prec_cast (prec : Nat) :
    (((2 : Int) ^ prec : Int) : ℚ) = (2 : ℚ) ^ (prec : Int) := by
  rw [zpow_natCast]
  push_cast
  rfl

theorem roundPos_bounds {prec : Nat} (hp : 1 ≤ prec) {x : ℚ} (hx : 0 < x) :
    (2 : ℚ) ^ Int.log 2 x ≤ roundPos prec x ∧
      roundPos prec x ≤ (2 : ℚ) ^ (Int.log 2 x + 1) := by
  have hu := ulp_pos prec x
  obtain ⟨h1, h2⟩ := scaled_bounds prec hx
  rw [roundPos_of_pos prec hx]
  constructor
  · rw [← ulp_mul_pred prec x]
    apply mul_le_mul_of_nonneg_right _ (le_of_lt hu)
    have := roundHalfEven_mono h1
    rw [← two_zpow_pred_cast hp, roundHalfEven_intCast] at this
    rw [← two_zpow_pred_cast hp]
    exact_mod_cast this
  · rw [← ulp_mul_prec prec x]
    apply mul_le_mul_of_nonneg_right _ (le_of_lt hu)
    have := roundHalfEven_mono (le_of_lt h2)
    rw [← two_zpow_prec_cast, roundHalfEven_intCast] at this
    rw [← two_zpow_prec_cast]
    exact_mod_cast this

theorem roundPos_nonneg {prec : Nat} (hp : 1 ≤ prec) {x : ℚ} (hx : 0 ≤ x) :
    0 ≤ roundPos prec x := by
  rcases eq_or_lt_of_le hx with h | h
  · rw [← h, roundPos_zero]
  · exact le_trans (by positivity) (roundPos_bounds hp h).1

theorem roundPos_mono {prec : Nat} (hp : 1 ≤ prec) {x y : ℚ} (hx : 0 ≤ x) (hxy : x ≤ y) :
    roundPos prec x ≤ roundPos prec y := by
  rcases eq_or_lt_of_le hx with h | h
  · rw [← h, roundPos_zero]
    exact roundPos_nonneg hp (le_trans hx hxy)
  · have hy : 0 < y := lt_of_lt_of_le h hxy
    have hlog := @Int.log_mono_right ℚ _ _ 2 x y h hxy
    rcases eq_or_lt_of_le hlog with he | he
    · have hu : ulp prec x = ulp prec y := by
        unfold ulp
        rw [he]
      rw [roundPos_of_pos prec h, roundPos_of_pos prec hy, hu]
      apply mul_le_mul_of_nonneg_right _ (le_of_lt (ulp_pos prec y))
      exact_mod_cast roundHalfEven_mono (div_le_div_of_nonneg_right hxy (le_of_lt (ulp_pos prec y)))
    · calc roundPos prec x ≤ (2 : ℚ) ^ (Int.log 2 x + 1) := (roundPos_bounds hp h).2
        _ ≤ (2 : ℚ) ^ Int.log 2 y := zpow_le_zpow_right₀ (by norm_num) (by omega)
        _ ≤ roundPos prec y := (roundPos_bounds hp hy).1

theorem roundPos_abs_sub_le (prec : Nat) {x : ℚ} (hx : 0 ≤ x) :
    |roundPos prec x - x| ≤ x / 2 ^ prec := by
  rcases eq_or_lt_of_le hx with h | h
  · rw [← h, roundPos_zero]
    simp
  · have hu := ulp_pos prec x
    rw [roundPos_of_pos prec h]
    have hx2 : x = x / ulp prec x * ulp prec x := by field_simp
    have h1 := roundHalfEven_abs_sub_le (x / ulp prec x)
    have h2 : (roundHalfEven (x / ulp prec x) : ℚ) * ulp prec x - x
        = ((roundHalfEven (x / ulp prec x) : ℚ) - x / ulp prec x) * ulp prec x := by
      rw [sub_mul, ← hx2]
    rw [h2, abs_mul, abs_of_pos hu]
    have h3 : ulp prec x / 2 = (2 : ℚ) ^ Int.log 2 x / 2 ^ prec := by
      have hm := ulp_mul_prec prec x
      rw [zpow_add₀ (two_ne_zero), zpow_one, zpow_natCast] at hm
      field_simp
      linarith
    calc |(roundHalfEven (x / ulp prec x) : ℚ) - x / ulp prec x| * ulp prec x
        ≤ 1 / 2 * ulp prec x := mul_le_mul_of_nonneg_right h1 (le_of_lt hu)
      _ = (2 : ℚ) ^ Int.log 2 x / 2 ^ prec := by rw [← h3]; ring
      _ ≤ x / 2 ^ prec := div_le_div_of_nonneg_right (two_zpow_log_le h) (by positivity)

theorem roundPos_eq_of {prec : Nat} {x : ℚ} {e m : Int} (hx : 0 < x)
    (h1 : (2 : ℚ) ^ e ≤ x) (h2 : x < (2 : ℚ) ^ (e + 1))
    (hm : |x / (2 : ℚ) ^ (e - prec + 1) - (m : ℚ)| < 1 / 2) :
    roundPos prec x = (m : ℚ) * (2 : ℚ) ^ (e - prec + 1) := by
  have hlog := log_two_eq_of_bounds hx h1 h2
  rw [roundPos_of_pos prec hx]
  unfold ulp
  rw [hlog, roundHalfEven_eq_of_abs_lt _ m hm]

theorem roundSig_of_nonneg (prec : Nat) {x : ℚ} (hx : 0 ≤ x) :
    roundSig prec x = roundPos prec x := by
  simp [roundSig, not_lt.mpr hx]

theorem roundSig_of_neg (prec : Nat) {x : ℚ} (hx : x < 0) :
    roundSig prec x = - roundPos prec (-x) := by
  simp [roundSig, hx]

theorem roundSig_zero (prec : Nat) : roundSig prec 0 = 0 := by
  rw [roundSig_of_nonneg prec (le_refl 0), roundPos_zero]

theorem roundSig_neg (prec : Nat) (x : ℚ) : roundSig prec (-x) = - roundSig prec x := by
  rcases lt_trichotomy x 0 with h | h | h
  · rw [roundSig_of_neg prec h, roundSig_of_nonneg prec (by linarith), neg_neg]
  · rw [h, neg_zero, roundSig_zero, neg_zero]
  · rw [roundSig_of_neg prec (by linarith : -x < 0), neg_neg,
      roundSig_of_nonneg prec (le_of_lt h)]

theorem roundSig_nonneg {prec : Nat} (hp : 1 ≤ prec) {x : ℚ} (hx : 0 ≤ x) :
    0 ≤ roundSig prec x := by
  rw [roundSig_of_nonneg prec hx]
  exact roundPos_nonneg hp hx

theorem roundSig_pos {prec : Nat} (hp : 1 ≤ prec) {x : ℚ} (hx : 0 < x) :
    0 < roundSig prec x := by
  rw [roundSig_of_nonneg prec (le_of_lt hx)]
  exact lt_of_lt_of_le (by positivity) (roundPos_bounds hp hx).1

theorem roundSig_neg_iff {prec : Nat} (hp : 1 ≤ prec) (x : ℚ) :
    roundSig prec x < 0 ↔ x < 0 := by
  constructor
  · intro h
    by_contra hx
    exact absurd h (not_lt.mpr (roundSig_nonneg hp (not_lt.mp hx)))
  · intro h
    have := roundSig_pos hp (by linarith : 0 < -x)
    rw [roundSig_neg] at this
    linarith

theorem roundSig_mono {prec : Nat} (hp : 1 ≤ prec) {x y : ℚ} (hxy : x ≤ y) :
    roundSig prec x ≤ roundSig prec y := by
  by_cases hx : x < 0
  · by_cases hy : y < 0
    · rw [roundSig_of_neg prec hx, roundSig_of_neg prec hy]
      exact neg_le_neg (roundPos_mono hp (by linarith) (by linarith))
    · have h1 := (roundSig_neg_iff hp x).mpr hx
      have h2 := roundSig_nonneg hp (not_lt.mp hy)
      linarith
  · have hx0 := not_lt.mp hx
    rw [roundSig_of_nonneg prec hx0, roundSig_of_nonneg prec (le_trans hx0 hxy)]
    exact roundPos_mono hp hx0 hxy

theorem roundSig_abs_sub_le (prec : Nat) (x : ℚ) :
    |roundSig prec x - x| ≤ |x| / 2 ^ prec := by
  by_cases hx : x < 0
  · rw [roundSig_of_neg prec hx, abs_of_neg hx]
    have := roundPos_abs_sub_le prec (by linarith : 0 ≤ -x)
    have h2 : -roundPos prec (-x) - x = -(roundPos prec (-x) - -x) := by ring
    rw [h2, abs_neg]
    exact this
  · have hx0 := not_lt.mp hx
    rw [roundSig_of_nonneg prec hx0, abs_of_nonneg hx0]
    exact roundPos_abs_sub_le prec hx0

theorem roundPos_dyadic {prec : Nat} (k : Nat) (j : Int) (hk0 : 0 < k) (hk : k < 2 ^ prec) :
    roundPos prec ((k : ℚ) * (2 : ℚ) ^ j) = (k : ℚ) * (2 : ℚ) ^ j := by
  have hkq : (0 : ℚ) < (k : ℚ) := by exact_mod_cast hk0
  have hx : (0 : ℚ) < (k : ℚ) * (2 : ℚ) ^ j := by positivity
  have hL1 : 2 ^ Nat.log 2 k ≤ k := Nat.pow_log_le_self 2 (Nat.pos_iff_ne_zero.mp hk0)
  have hL2 : k < 2 ^ (Nat.log 2 k + 1) := Nat.lt_pow_succ_log_self Nat.one_lt_two k
  have hLp : Nat.log 2 k < prec := Nat.log_lt_of_lt_pow (Nat.pos_iff_ne_zero.mp hk0) hk
  have hj : (0 : ℚ) < (2 : ℚ) ^ j := by positivity
  have h1 : (2 : ℚ) ^ ((Nat.log 2 k : Int) + j) ≤ (k : ℚ) * (2 : ℚ) ^ j := by
    rw [zpow_add₀ (two_ne_zero), zpow_natCast]
    apply mul_le_mul_of_nonneg_right _ (le_of_lt hj)
    exact_mod_cast hL1
  have h2 : (k : ℚ) * (2 : ℚ) ^ j < (2 : ℚ) ^ ((Nat.log 2 k : Int) + j + 1) := by
    have : ((Nat.log 2 k : Int) + j + 1) = ((Nat.log 2 k + 1 : Nat) : Int) + j := by
      push_cast
      ring
    rw [this, zpow_add₀ (two_ne_zero), zpow_natCast]
    apply mul_lt_mul_of_pos_right _ hj
    exact_mod_cast hL2
  have hexp : ((Nat.log 2 k : Int) + j - prec + 1) = j - ((prec - 1 - Nat.log 2 k : Nat) : Int) := by
    omega
  have hu : (2 : ℚ) ^ ((Nat.log 2 k : Int) + j - prec + 1)
      = (2 : ℚ) ^ j / (2 : ℚ) ^ (prec - 1 - Nat.log 2 k) := by
    rw [hexp, zpow_sub₀ (two_ne_zero), zpow_natCast]
  have hm : |(k : ℚ) * (2 : ℚ) ^ j / (2 : ℚ) ^ ((Nat.log 2 k : Int) + j - prec + 1)
      - (((k * 2 ^ (prec - 1 - Nat.log 2 k) : Nat) : Int) : ℚ)| < 1 / 2 := by
    rw [hu]
    have : (k : ℚ) * (2 : ℚ) ^ j / ((2 : ℚ) ^ j / (2 : ℚ) ^ (prec - 1 - Nat.log 2 k))
        = (k : ℚ) * (2 : ℚ) ^ (prec - 1 - Nat.log 2 k) := by
      field_simp
      ring
    rw [this]
    push_cast
    simp
  rw [roundPos_eq_of hx h1 h2 hm, hu]
  push_cast
  field_simp
  ring

theorem roundSig_dyadic {prec : Nat} (k : Int) (j : Int) (hk : |k| < 2 ^ prec) :
    roundSig prec ((k : ℚ) * (2 : ℚ) ^ j) = (k : ℚ) * (2 : ℚ) ^ j := by
  have hj : (0 : ℚ) < (2 : ℚ) ^ j := by positivity
  rcases lt_trichotomy k 0 with h | h | h
  · have hneg : (k : ℚ) * (2 : ℚ) ^ j < 0 := by
      have : (k : ℚ) < 0 := by exact_mod_cast h
      exact mul_neg_of_neg_of_pos this hj
    rw [roundSig_of_neg prec hneg]
    have hnat : ((k.natAbs : Nat) : ℚ) = -(k : ℚ) := by
      rw [Nat.cast_natAbs, abs_of_neg h]
      push_cast
      rfl
    have hlt : k.natAbs < 2 ^ prec := by
      have : ((k.natAbs : Nat) : Int) < 2 ^ prec := by
        rw [Int.natCast_natAbs]
        exact hk
      exact_mod_cast this
    have := @roundPos_dyadic prec k.natAbs j (by omega) hlt
    rw [hnat] at this
    rw [show -((k : ℚ) * (2 : ℚ) ^ j) = -(k : ℚ) * (2 : ℚ) ^ j by ring, this]
    ring
  · subst h
    simp [roundSig_zero]
  · have hpos : 0 ≤ (k : ℚ) * (2 : ℚ) ^ j := by
      have : (0 : ℚ) < (k : ℚ) := by exact_mod_cast h
      positivity
    rw [roundSig_of_nonneg prec hpos]
    have hnat : ((k.natAbs : Nat) : ℚ) = (k : ℚ) := by
      rw [Nat.cast_natAbs, abs_of_pos h]
    have hlt : k.natAbs < 2 ^ prec := by
      have : ((k.natAbs : Nat) : Int) < 2 ^ prec := by
        rw [Int.natCast_natAbs]
        exact hk
      exact_mod_cast this
    have := @roundPos_dyadic prec k.natAbs j (by omega) hlt
    rw [hnat] at this
    exact this

theorem roundSig_intCast {prec : Nat} (z : Int) (hz : |z| < 2 ^ prec) :
    roundSig prec (z : ℚ) = (z : ℚ) := by
  have := @roundSig_dyadic prec z 0 hz
  simpa using this

/-! ## Track resolution -/

theorem getTrackByIndex_ok (p : AudioPrivate) (i : Int)
    (h : max i 0 < (p.bgmTracks.length : Int)) :
    getTrackByIndex p i = Except.ok (max i 0).toNat := by
  unfold getTrackByIndex
  by_cases hneg : i < 0
  · have hm : max i 0 = 0 := max_eq_right (le_of_lt hneg)
    rw [hm] at h
    simp only [hneg, if_true, hm]
    rw [if_neg (by omega)]
  · have hm : max i 0 = i := max_eq_left (not_lt.mp hneg)
    rw [hm] at h
    simp only [hneg, if_false, hm]
    rw [if_neg (by omega)]

theorem getTrackByIndex_error (p : AudioPrivate) (i : Int)
    (hsize : 1 ≤ p.bgmTracks.length) (h : ¬ max i 0 < (p.bgmTracks.length : Int)) :
    getTrackByIndex p i =
      Except.error { index := i, max := (p.bgmTracks.length : Int) - 1 } := by
  unfold getTrackByIndex
  have hlen : (1 : Int) ≤ (p.bgmTracks.length : Int) := by exact_mod_cast hsize
  by_cases hneg : i < 0
  · have hm : max i 0 = 0 := max_eq_right (le_of_lt hneg)
    rw [hm] at h
    omega
  · have hm : max i 0 = i := max_eq_left (not_lt.mp hneg)
    rw [hm] at h
    simp only [hneg, if_false]
    rw [if_pos (by omega)]

/-- C1: with at least one track and an index `i` other than the sentinel `-127`, every
track-targeted facade operation acts on track `max i 0` when `max i 0 < trackCount`
(play, stop and fade are issued to that track only, the volume is written to or read
from its `Base`, the position is read from it), and otherwise fails with the
out-of-range exception carrying `i` and `trackCount - 1`, the whole state (every track,
both global volumes) being the one before the call. -/
theorem C1_track_resolution (p : AudioPrivate) (i : Int)
    (hsize : 1 ≤ p.bgmTracks.length) (hi : i ≠ -127)
    (filename : String) (volume pitch time : Int) (pos : ℚ) :
    (max i 0 < (p.bgmTracks.length : Int) →
      ∃ t, p.bgmTracks.get? (max i 0).toNat = some t ∧
        getTrackByIndex p i = Except.ok (max i 0).toNat ∧
        bgmPlay filename volume pitch pos i p =
          (Except.ok (),
            { p with
              bgmTracks :=
                p.bgmTracks.set (max i 0).toNat
                  (t.play filename
                    (Int.tdiv (wrapInt32 (volume * p.global_bgm_volume)) 100) pitch pos) }) ∧
        bgmStop i p =
          (Except.ok (), { p with bgmTracks := p.bgmTracks.set (max i 0).toNat t.stop }) ∧
        bgmFade time i p =
          (Except.ok (),
            { p with bgmTracks := p.bgmTracks.set (max i 0).toNat (t.fadeOut time) }) ∧
        bgmSetVolume volume i p =
          (Except.ok (),
            { p with
              bgmTracks :=
                p.bgmTracks.set (max i 0).toNat
                  { t with
                    base := f32 (f64 ((wrapInt32 (volume * p.global_bgm_volume) : ℚ) / 100)) } }) ∧
        bgmGetVolume i p = bgmGetVolumeTail p t.base ∧
        bgmPos i p = some (Except.ok t.offset, p)) ∧
    (¬ max i 0 < (p.bgmTracks.length : Int) →
      getTrackByIndex p i =
        Except.error { index := i, max := (p.bgmTracks.length : Int) - 1 } ∧
      bgmPlay filename volume pitch pos i p =
        (Except.error { index := i, max := (p.bgmTracks.length : Int) - 1 }, p) ∧
      bgmStop i p =
        (Except.error { index := i, max := (p.bgmTracks.length : Int) - 1 }, p) ∧
      bgmFade time i p =
        (Except.error { index := i, max := (p.bgmTracks.length : Int) - 1 }, p) ∧
      bgmSetVolume volume i p =
        (Except.error { index := i, max := (p.bgmTracks.length : Int) - 1 }, p) ∧
      bgmGetVolume i p =
        some (Except.error { index := i, max := (p.bgmTracks.length : Int) - 1 }, p) ∧
      bgmPos i p =
        some (Except.error { index := i, max := (p.bgmTracks.length : Int) - 1 }, p)) := by
  constructor
  · intro h
    have hres := getTrackByIndex_ok p i h
    have hk : (max i 0).toNat < p.bgmTracks.length := by
      have h0 : (0 : Int) ≤ max i 0 := le_max_right i 0
      omega
    obtain ⟨t, ht⟩ : ∃ t, p.bgmTracks.get? (max i 0).toNat = some t :=
      ⟨p.bgmTracks.get ⟨_, hk⟩, List.get?_eq_get hk⟩
    have hmod : ∀ f : AudioStream → AudioStream,
        p.bgmTracks.modify f (max i 0).toNat = p.bgmTracks.set (max i 0).toNat (f t) := by
      intro f
      apply List.ext_getElem?
      intro j
      rw [List.getElem?_modify, List.getElem?_set]
      by_cases hj : (max i 0).toNat = j
      · subst hj
        have ht2 : p.bgmTracks[(max i 0).toNat]? = some t := by simpa using ht
        simp [ht2, hk]
      · simp [hj]
    refine ⟨t, ht, hres, ?_, ?_, ?_, ?_, ?_, ?_⟩
    · simp only [bgmPlay, if_neg hi, hres, AudioPrivate.onTrack, hmod]
    · simp only [bgmStop, if_neg hi, hres, AudioPrivate.onTrack, hmod]
    · simp only [bgmFade, if_neg hi, hres, AudioPrivate.onTrack, hmod]
    · simp only [bgmSetVolume, if_neg hi, hres, AudioPrivate.onTrack, hmod,
        AudioStream.setVolume]
    · simp only [bgmGetVolume, if_neg hi, hres, ht, AudioStream.getVolume]
    · simp only [bgmPos, hres, ht, AudioStream.playingOffset]
  · intro h
    have hres := getTrackByIndex_error p i hsize h
    refine ⟨hres, ?_, ?_, ?_, ?_, ?_, ?_⟩
    · simp only [bgmPlay, if_neg hi, hres]
    · simp only [bgmStop, if_neg hi, hres]
    · simp only [bgmFade, if_neg hi, hres]
    · simp only [bgmSetVolume, if_neg hi, hres]
    · simp only [bgmGetVolume, if_neg hi, hres]
    · simp only [bgmPos, hres]

/-- Witness of C1 on a two-track set: index `-3` resolves to track 0, index `5` fails
with the exception carrying `5` and `1` and the state is the one before the call. -/
theorem C1_track_resolution_witness :
    1 ≤ (AudioPrivate.init 2).bgmTracks.length ∧ (5 : Int) ≠ -127 ∧
      ¬ max (5 : Int) 0 < ((AudioPrivate.init 2).bgmTracks.length : Int) ∧
      bgmStop 5 (AudioPrivate.init 2) =
        (Except.error { index := 5, max := ((AudioPrivate.init 2).bgmTracks.length : Int) - 1 },
          AudioPrivate.init 2) :=
  ⟨by decide, by decide, by decide,
    ((C1_track_resolution (AudioPrivate.init 2) 5 (by decide) (by decide) "a" 0 0 0 0).2
      (by decide)).2.2.1⟩

/-! ## Volume round trip -/

theorem truncToInt_intCast (z : Int) : truncToInt (z : ℚ) = z := by
  simp [truncToInt]

theorem wrapInt32_of_range (z : Int) (h1 : -2147483648 ≤ z) (h2 : z ≤ 2147483647) :
    wrapInt32 z = z := by
  unfold wrapInt32
  omega

theorem f32_intCast (z : Int) (hz : |z| < 2 ^ 24) : f32 (z : ℚ) = (z : ℚ) :=
  roundSig_intCast z hz

theorem f64_intCast (z : Int) (hz : |z| < 2 ^ 53) : f64 (z : ℚ) = (z : ℚ) :=
  roundSig_intCast z hz

theorem floatToInt_intCast (z : Int) (h1 : -2147483648 ≤ z) (h2 : z ≤ 2147483647) :
    floatToInt (z : ℚ) = some z := by
  unfold floatToInt
  rw [truncToInt_intCast, if_pos ⟨h1, h2⟩]

theorem bgmSetVolume_resolved (p : AudioPrivate) (v i : Int) (k : Nat) (hne : i ≠ -127)
    (hres : getTrackByIndex p i = Except.ok k) :
    (bgmSetVolume v i p).2 =
      p.onTrack k (fun t =>
        t.setVolume VolumeType.Base
          (f32 (f64 ((wrapInt32 (v * p.global_bgm_volume) : ℚ) / 100)))) := by
  simp only [bgmSetVolume, if_neg hne, hres]

theorem bgmGetVolume_resolved (q : AudioPrivate) (i : Int) (k : Nat) (t : AudioStream)
    (hne : i ≠ -127) (hres : getTrackByIndex q i = Except.ok k)
    (hget : q.bgmTracks.get? k = some t) :
    bgmGetVolume i q = bgmGetVolumeTail q t.base := by
  simp only [bgmGetVolume, if_neg hne, hres, hget, AudioStream.getVolume]

theorem bgmGetVolumeTail_eq (q : AudioPrivate) (x : ℚ) (z : Int)
    (hz : floatToInt (f32 (x * f32 100)) = some z)
    (hg : ¬ (q.global_bgm_volume = 0 ∨
      (wrapInt32 (z * 100) = -2147483648 ∧ q.global_bgm_volume = -1))) :
    bgmGetVolumeTail q x =
      some (Except.ok (Int.tdiv (wrapInt32 (z * 100)) q.global_bgm_volume), q) := by
  unfold bgmGetVolumeTail
  rw [hz]
  simp only [if_neg hg]

/-- C2 (the code at the failing input): on one track with the global BGM volume at its
initial 100, `bgmSetVolume(50, 0)` followed by `bgmGetVolume(0)` returns 5000, not 50. -/
theorem C2_round_trip_returns_5000 :
    (bgmGetVolume 0 (bgmSetVolume 50 0 (AudioPrivate.init 1)).2).map Prod.fst
      = some (Except.ok 5000) := by
  have hw1 : wrapInt32 (50 * (AudioPrivate.init 1).global_bgm_volume) = 5000 := by decide
  have hw2 : wrapInt32 (5000 * 100) = 500000 := by decide
  have h50 : f32 (f64 (((5000 : Int) : ℚ) / 100)) = 50 := by
    have e1 : (((5000 : Int) : ℚ) / 100) = ((50 : Int) : ℚ) := by norm_num
    rw [e1, f64_intCast 50 (by norm_num), f32_intCast 50 (by norm_num)]
    norm_num
  have h100 : f32 (100 : ℚ) = 100 := by
    have := f32_intCast 100 (by norm_num)
    simpa using this
  have h5000 : f32 ((50 : ℚ) * 100) = ((5000 : Int) : ℚ) := by
    have e1 : ((50 : ℚ) * 100) = ((5000 : Int) : ℚ) := by norm_num
    rw [e1, f32_intCast 5000 (by norm_num)]
  have hz : floatToInt (f32 ((50 : ℚ) * f32 100)) = some 5000 := by
    rw [h100, h5000]
    exact floatToInt_intCast 5000 (by norm_num) (by norm_num)
  have hres : getTrackByIndex (AudioPrivate.init 1) 0 = Except.ok 0 :=
    getTrackByIndex_ok (AudioPrivate.init 1) 0 (by decide)
  have hset : (bgmSetVolume 50 0 (AudioPrivate.init 1)).2 =
      { AudioPrivate.init 1 with bgmTracks := [{ AudioStream.fresh with base := 50 }] } := by
    rw [bgmSetVolume_resolved (AudioPrivate.init 1) 50 0 0 (by decide) hres, hw1, h50]
    rfl
  have hres2 : getTrackByIndex
      { AudioPrivate.init 1 with bgmTracks := [{ AudioStream.fresh with base := 50 }] } 0
        = Except.ok 0 :=
    getTrackByIndex_ok _ 0 (by decide)
  have hg : ¬ (({ AudioPrivate.init 1 with
        bgmTracks := [{ AudioStream.fresh with base := 50 }] } : AudioPrivate).global_bgm_volume = 0 ∨
      (wrapInt32 (5000 * 100) = -2147483648 ∧
        ({ AudioPrivate.init 1 with
          bgmTracks := [{ AudioStream.fresh with base := 50 }] } : AudioPrivate).global_bgm_volume
            = -1)) := by
    rw [hw2]
    decide
  rw [hset, bgmGetVolume_resolved _ 0 0 { AudioStream.fresh with base := 50 } (by decide) hres2 rfl,
    bgmGetVolumeTail_eq _ _ 5000 hz hg, hw2]
  rfl

/-! ## `bgmPlay` on the sentinel -/

theorem stopNonPrimary_succ (i : Nat) (l : List AudioStream) :
    stopNonPrimary (i + 1) l = l.map AudioStream.stop := by
  induction l generalizing i with
  | nil => rfl
  | cons t rest ih => simp [stopNonPrimary, ih]

theorem stopNonPrimary_zero_cons (t : AudioStream) (rest : List AudioStream) :
    stopNonPrimary 0 (t :: rest) = t :: rest.map AudioStream.stop := by
  simp [stopNonPrimary, stopNonPrimary_succ]

/-- C3: `bgmPlay` with the sentinel `-127` on a track set `t0 :: rest` succeeds; track 0
receives exactly one command, the play with the file, pitch and position given and
volume `(volume * global_bgm_volume) / 100` in `int` arithmetic (the 32-bit product, which
is the mathematical product whenever that fits an `int`, divided with truncation), and
no stop; every track of index `≥ 1` receives exactly one command, a stop, and no play;
nothing else changes. -/
theorem C3_bgmPlay_all_tracks (p : AudioPrivate) (t0 : AudioStream) (rest : List AudioStream)
    (filename : String) (volume pitch : Int) (pos : ℚ)
    (htracks : p.bgmTracks = t0 :: rest) :
    bgmPlay filename volume pitch pos (-127) p =
        (Except.ok (),
          { p with
            bgmTracks :=
              t0.play filename
                  (Int.tdiv (wrapInt32 (volume * p.global_bgm_volume)) 100) pitch pos
                :: rest.map AudioStream.stop }) ∧
      ((-2147483648 ≤ volume * p.global_bgm_volume ∧
          volume * p.global_bgm_volume ≤ 2147483647) →
        Int.tdiv (wrapInt32 (volume * p.global_bgm_volume)) 100
          = Int.tdiv (volume * p.global_bgm_volume) 100) ∧
      (t0.play filename
          (Int.tdiv (wrapInt32 (volume * p.global_bgm_volume)) 100) pitch pos).issued =
        t0.issued ++
          [Command.play filename
            (Int.tdiv (wrapInt32 (volume * p.global_bgm_volume)) 100) pitch pos] ∧
      (∀ t ∈ rest, (AudioStream.stop t).issued = t.issued ++ [Command.stop]) := by
  refine ⟨?_, ?_, rfl, fun t _ => rfl⟩
  · have hres : getTrackByIndex { p with bgmTracks := stopNonPrimary 0 p.bgmTracks } 0
        = Except.ok 0 := by
      have := getTrackByIndex_ok { p with bgmTracks := stopNonPrimary 0 p.bgmTracks } 0
        (by simp [htracks, stopNonPrimary])
      simpa using this
    simp only [bgmPlay, if_true, hres, AudioPrivate.onTrack]
    simp [htracks, stopNonPrimary_zero_cons]
  · intro h
    rw [wrapInt32_of_range _ h.1 h.2]

/-- Witness of C3 on a three-track set. -/
theorem C3_bgmPlay_all_tracks_witness :
    (AudioPrivate.init 3).bgmTracks =
        AudioStream.fresh :: [AudioStream.fresh, AudioStream.fresh] ∧
      bgmPlay "theme" 80 100 0 (-127) (AudioPrivate.init 3) =
        (Except.ok (),
          { AudioPrivate.init 3 with
            bgmTracks :=
              AudioStream.fresh.play "theme"
                  (Int.tdiv (wrapInt32 (80 * (AudioPrivate.init 3).global_bgm_volume)) 100) 100 0
                :: [AudioStream.fresh, AudioStream.fresh].map AudioStream.stop }) :=
  ⟨rfl, (C3_bgmPlay_all_tracks (AudioPrivate.init 3) AudioStream.fresh
    [AudioStream.fresh, AudioStream.fresh] "theme" 80 100 0 rfl).1⟩

/-! ## Global volumes -/

theorem roundSig_eval {prec : Nat} {x : ℚ} {e m : Int} (hx : 0 < x)
    (h1 : (2 : ℚ) ^ e ≤ x) (h2 : x < (2 : ℚ) ^ (e + 1))
    (hm : |x / (2 : ℚ) ^ (e - prec + 1) - (m : ℚ)| < 1 / 2) :
    roundSig prec x = (m : ℚ) * (2 : ℚ) ^ (e - prec + 1) := by
  rw [roundSig_of_nonneg prec (le_of_lt hx)]
  exact roundPos_eq_of hx h1 h2 hm

theorem f32_one : f32 1 = 1 := by
  have := f32_intCast 1 (by norm_num)
  simpa using this

theorem meWatchRun_succ (audioSleep k : Nat) (p : AudioPrivate) :
    meWatchRun audioSleep (k + 1) p =
      (meWatchRun audioSleep k p).bind (meWatchTick audioSleep) := by
  induction k generalizing p with
  | zero => cases h : meWatchTick audioSleep p <;> simp [meWatchRun, h]
  | succ k ih =>
    rw [meWatchRun]
    cases h : meWatchTick audioSleep p with
    | none => simp [meWatchRun, h]
    | some q =>
      simp only [Option.bind]
      rw [ih q]
      conv_rhs => rw [meWatchRun, h]
      rfl

theorem streamPause_not_playing (t : AudioStream) : t.streamPause.state ≠ State.Playing := by
  unfold AudioStream.streamPause
  by_cases h : t.state = State.Playing
  · simp [h]
  · simp [h]

theorem no_playing_iff (l : List AudioStream) :
    (l.filter (fun t => decide (t.state = State.Playing))).length ≤ 0 ↔
      ∀ a ∈ l, a.state ≠ State.Playing := by
  simp [List.filter_eq_nil_iff]

theorem fadeOutLoop_fst (step : ℚ) (done rest : List AudioStream) (sb : Bool) :
    (fadeOutLoop step done rest sb).1 = done ++ rest.map (fadeOutBody step) := by
  induction rest generalizing done sb with
  | nil => simp [fadeOutLoop]
  | cons t rest ih =>
    unfold fadeOutLoop
    by_cases h : settles step t
    · have h2 := h
      unfold settles at h2
      simp only [h2, if_true, ih, fadeOutBody, h, List.map_cons, List.append_assoc,
        List.singleton_append]
    · have h2 := h
      unfold settles at h2
      simp only [h2, if_false, ih, fadeOutBody, h, List.map_cons, List.append_assoc,
        List.singleton_append]

theorem fadeOutLoop_snd (step : ℚ) (done rest : List AudioStream) (sb : Bool) :
    (fadeOutLoop step done rest sb).2 = true ↔
      sb = true ∨ (rest ≠ [] ∧ (∀ t ∈ done, t.state ≠ State.Playing) ∧
        ∀ t ∈ rest, settles step t) := by
  induction rest generalizing done sb with
  | nil => simp [fadeOutLoop]
  | cons t rest ih =>
    unfold fadeOutLoop
    by_cases h : settles step t
    · have h2 := h
      unfold settles at h2
      simp only [h2, if_true]
      rw [ih]
      have hp := streamPause_not_playing (t.setVolume VolumeType.External 0)
      have hsb1 : (if (List.filter (fun t => decide (t.state = State.Playing))
              (done ++ (t.setVolume VolumeType.External 0).streamPause :: rest)).length ≤ 0
                ∧ sb = false then true else sb) = true ↔
            (sb = true ∨ ((∀ a ∈ done, a.state ≠ State.Playing) ∧
              ∀ a ∈ rest, a.state ≠ State.Playing)) := by
        have hall : (∀ a ∈ done ++ (t.setVolume VolumeType.External 0).streamPause :: rest,
              a.state ≠ State.Playing) ↔
            ((∀ a ∈ done, a.state ≠ State.Playing) ∧ ∀ a ∈ rest, a.state ≠ State.Playing) := by
          constructor
          · intro hh
            exact ⟨fun a ha => hh a (List.mem_append_left _ ha),
              fun a ha => hh a (List.mem_append_right _ (List.mem_cons_of_mem _ ha))⟩
          · rintro ⟨hd, hr⟩ a ha
            rcases List.mem_append.mp ha with ha | ha
            · exact hd a ha
            · rcases List.mem_cons.mp ha with ha | ha
              · rw [ha]; exact hp
              · exact hr a ha
        have hiff := (no_playing_iff
          (done ++ (t.setVolume VolumeType.External 0).streamPause :: rest)).trans hall
        cases sb with
        | true => simp
        | false =>
          by_cases hc : (List.filter (fun t => decide (t.state = State.Playing))
              (done ++ (t.setVolume VolumeType.External 0).streamPause :: rest)).length ≤ 0
          · rw [if_pos ⟨hc, rfl⟩]
            exact ⟨fun _ => Or.inr (hiff.mp hc), fun _ => rfl⟩
          · rw [if_neg (fun hh => hc hh.1)]
            constructor
            · intro hf
              exact absurd hf (by decide)
            · rintro (hf | hf)
              · exact hf
              · exact absurd (hiff.mpr hf) hc
      rw [hsb1]
      have hdone : (∀ a ∈ done ++ [(t.setVolume VolumeType.External 0).streamPause],
            a.state ≠ State.Playing) ↔ ∀ a ∈ done, a.state ≠ State.Playing := by
        constructor
        · intro hh a ha
          exact hh a (List.mem_append_left _ ha)
        · intro hd a ha
          rcases List.mem_append.mp ha with ha | ha
          · exact hd a ha
          · rw [List.mem_singleton.mp ha]; exact hp
      rw [hdone]
      constructor
      · rintro ((hsb | ⟨hd, hr⟩) | ⟨_, hd, hr⟩)
        · exact Or.inl hsb
        · refine Or.inr ⟨List.cons_ne_nil _ _, hd, ?_⟩
          intro a ha
          rcases List.mem_cons.mp ha with ha | ha
          · rw [ha]; exact h
          · exact Or.inr (hr a ha)
        · refine Or.inr ⟨List.cons_ne_nil _ _, hd, ?_⟩
          intro a ha
          rcases List.mem_cons.mp ha with ha | ha
          · rw [ha]; exact h
          · exact hr a ha
      · rintro (hsb | ⟨_, hd, hr⟩)
        · exact Or.inl (Or.inl hsb)
        · by_cases hrest : rest = []
          · subst hrest
            exact Or.inl (Or.inr ⟨hd, fun a ha => absurd ha (List.not_mem_nil a)⟩)
          · exact Or.inr ⟨hrest, hd, fun a ha => hr a (List.mem_cons_of_mem _ ha)⟩
    · have h2 := h
      unfold settles at h2
      simp only [h2, if_false]
      rw [ih]
      have hplay : t.state = State.Playing := by
        by_contra hc
        exact h (Or.inr hc)
      constructor
      · rintro (hsb | ⟨_, hd, _⟩)
        · exact Or.inl hsb
        · exfalso
          exact hd (t.setVolume VolumeType.External
              (f32 (t.getVolume VolumeType.External - step)))
            (by simp) (by simpa [AudioStream.setVolume] using hplay)
      · rintro (hsb | ⟨_, _, hr⟩)
        · exact Or.inl hsb
        · exact absurd (hr t (List.mem_cons_self _ _)) h

theorem meWatchTick_fadingOut (audioSleep : Nat) (p : AudioPrivate)
    (hst : p.state = MeWatchState.BgmFadingOut) (hme : p.me.state = State.Playing) :
    meWatchTick audioSleep p =
      some { p with
        bgmTracks := p.bgmTracks.map (fadeOutBody (fadeOutStep audioSleep))
        state :=
          if p.bgmTracks ≠ [] ∧ ∀ t ∈ p.bgmTracks, settles (fadeOutStep audioSleep) t then
            MeWatchState.MePlaying
          else MeWatchState.BgmFadingOut } := by
  have hfst := fadeOutLoop_fst (fadeOutStep audioSleep) [] p.bgmTracks false
  have hsnd := fadeOutLoop_snd (fadeOutStep audioSleep) [] p.bgmTracks false
  simp only [List.nil_append] at hfst
  have hsnd2 : (fadeOutLoop (fadeOutStep audioSleep) [] p.bgmTracks false).2 = true ↔
      (p.bgmTracks ≠ [] ∧ ∀ t ∈ p.bgmTracks, settles (fadeOutStep audioSleep) t) := by
    rw [hsnd]
    constructor
    · rintro (hf | ⟨h1, _, h3⟩)
      · exact absurd hf (by decide)
      · exact ⟨h1, h3⟩
    · rintro ⟨h1, h3⟩
      exact Or.inr ⟨h1, fun t ht => absurd ht (List.not_mem_nil t), h3⟩
  unfold meWatchTick
  rw [hst]
  simp only [hme, ne_eq, not_true_eq_false, if_false]
  by_cases hc : p.bgmTracks ≠ [] ∧ ∀ t ∈ p.bgmTracks, settles (fadeOutStep audioSleep) t
  · rw [if_pos (hsnd2.mpr hc), if_pos hc, hfst]
  · rw [if_neg (fun hh => hc (hsnd2.mp hh)), if_neg hc, hfst, ← hst]

/-- One `BgmFadingOut` tick on a ducked track set whose tracks are all Playing at the
same `External` value `e`: the value becomes the `float` difference `e - step` while that
is nonnegative,
and otherwise every track is set to 0 and paused and the watcher enters `MePlaying`. -/
theorem fadingOut_uniform_tick (audioSleep : Nat) (p : AudioPrivate) (e : ℚ)
    (hne : p.bgmTracks ≠ []) (hme : p.me.state = State.Playing)
    (htr : ∀ t ∈ p.bgmTracks, t.state = State.Playing) :
    (0 ≤ f32 (e - fadeOutStep audioSleep) →
      meWatchTick audioSleep
          { p with
            bgmTracks := p.bgmTracks.map (fun t => { t with extPaused := true, ext := e })
            state := MeWatchState.BgmFadingOut } =
        some { p with
          bgmTracks := p.bgmTracks.map
            (fun t => { t with extPaused := true, ext := f32 (e - fadeOutStep audioSleep) })
          state := MeWatchState.BgmFadingOut }) ∧
    (f32 (e - fadeOutStep audioSleep) < 0 →
      meWatchTick audioSleep
          { p with
            bgmTracks := p.bgmTracks.map (fun t => { t with extPaused := true, ext := e })
            state := MeWatchState.BgmFadingOut } =
        some { p with
          bgmTracks := p.bgmTracks.map
            (fun t => { t with
              extPaused := true, ext := 0, state := State.Paused
              issued := t.issued ++ [Command.streamPause] })
          state := MeWatchState.MePlaying }) := by
  obtain ⟨t0, ht0⟩ := List.exists_mem_of_ne_nil _ hne
  constructor
  · intro hnonneg
    rw [meWatchTick_fadingOut audioSleep
      { p with
        bgmTracks := p.bgmTracks.map (fun t => { t with extPaused := true, ext := e })
        state := MeWatchState.BgmFadingOut } rfl hme]
    have hns : ∀ t ∈ p.bgmTracks, ¬ settles (fadeOutStep audioSleep)
        ({ t with extPaused := true, ext := e } : AudioStream) := by
      intro t ht hs
      rcases hs with hs | hs
      · simp only [AudioStream.getVolume] at hs
        exact absurd hs (not_lt.mpr hnonneg)
      · exact hs (htr t ht)
    have hcond : ¬ ((p.bgmTracks.map
          (fun t => ({ t with extPaused := true, ext := e } : AudioStream)) ≠ []) ∧
        ∀ t ∈ p.bgmTracks.map (fun t => ({ t with extPaused := true, ext := e } : AudioStream)),
          settles (fadeOutStep audioSleep) t) := by
      rintro ⟨_, hall⟩
      exact hns t0 ht0 (hall _ (List.mem_map_of_mem _ ht0))
    simp only [if_neg hcond, List.map_map]
    congr 2
    apply List.map_congr_left
    intro t ht
    simp only [Function.comp, fadeOutBody, if_neg (hns t ht), AudioStream.setVolume,
      AudioStream.getVolume]
  · intro hneg
    rw [meWatchTick_fadingOut audioSleep
      { p with
        bgmTracks := p.bgmTracks.map (fun t => { t with extPaused := true, ext := e })
        state := MeWatchState.BgmFadingOut } rfl hme]
    have hs : ∀ t ∈ p.bgmTracks, settles (fadeOutStep audioSleep)
        ({ t with extPaused := true, ext := e } : AudioStream) := by
      intro t _
      left
      simpa only [AudioStream.getVolume] using hneg
    have hcond : ((p.bgmTracks.map
          (fun t => ({ t with extPaused := true, ext := e } : AudioStream)) ≠ []) ∧
        ∀ t ∈ p.bgmTracks.map (fun t => ({ t with extPaused := true, ext := e } : AudioStream)),
          settles (fadeOutStep audioSleep) t) := by
      refine ⟨by simpa using hne, ?_⟩
      intro t ht
      obtain ⟨u, hu, rfl⟩ := List.mem_map.mp ht
      exact hs u hu
    simp only [if_pos hcond, List.map_map]
    congr 2
    apply List.map_congr_left
    intro t ht
    simp only [Function.comp, fadeOutBody]
    rw [if_pos (hs t ht)]
    simp only [AudioStream.setVolume, AudioStream.streamPause, htr t ht, if_true]

/-! ## Fade steps and fade sequences -/

theorem f32_mono {x y : ℚ} (h : x ≤ y) : f32 x ≤ f32 y :=
  roundSig_mono (by norm_num) h

theorem f32_nonneg {x : ℚ} (h : 0 ≤ x) : 0 ≤ f32 x :=
  roundSig_nonneg (by norm_num) h

theorem f32_neg_iff (x : ℚ) : f32 x < 0 ↔ x < 0 :=
  roundSig_neg_iff (by norm_num) x

theorem f32_abs_sub_le (x : ℚ) : |f32 x - x| ≤ |x| / 2 ^ 24 :=
  roundSig_abs_sub_le 24 x

theorem f32_natCast (n : Nat) (h : n < 2 ^ 24) : f32 (n : ℚ) = (n : ℚ) := by
  have h1 : (n : Int) < 2 ^ 24 := by exact_mod_cast h
  have h2 : |(n : Int)| < 2 ^ 24 := by
    rw [abs_lt]
    constructor
    · have : (0 : Int) ≤ (n : Int) := Int.natCast_nonneg n
      linarith
    · exact h1
  have := f32_intCast (n : Int) h2
  rwa [Int.cast_natCast] at this

/-- The `float` quotient `1.f / n` for `1 ≤ n ≤ 1000`: positive, at most 1, and within
`2 ^ (-24)` of `1 / n`. -/
theorem floatStep_facts (n : Nat) (h1 : 1 ≤ n) (h2 : n ≤ 1000) :
    |f32 (1 / f32 (n : ℚ)) - 1 / (n : ℚ)| ≤ 1 / 2 ^ 24 ∧ 0 < f32 (1 / f32 (n : ℚ)) ∧
      f32 (1 / f32 (n : ℚ)) ≤ 1 := by
  rw [f32_natCast n (by omega)]
  have hn : (1 : ℚ) ≤ (n : ℚ) := by exact_mod_cast h1
  have hpos : (0 : ℚ) < 1 / (n : ℚ) := by positivity
  have hle : 1 / (n : ℚ) ≤ 1 := by
    rw [div_le_one (by linarith)]
    exact hn
  refine ⟨?_, roundSig_pos (by norm_num) hpos, ?_⟩
  · have := f32_abs_sub_le (1 / (n : ℚ))
    rw [abs_of_pos hpos] at this
    have h3 : 1 / (n : ℚ) / 2 ^ 24 ≤ 1 / 2 ^ 24 :=
      div_le_div_of_nonneg_right hle (by positivity)
    linarith
  · have := f32_mono hle
    rwa [f32_one] at this

theorem fadeOutSeq_near (n : Nat) (s : ℚ) (h1 : 1 ≤ n) (h2 : n ≤ 200)
    (hs : |s - 1 / (n : ℚ)| ≤ 1 / 2 ^ 24) :
    ∀ k : Nat, k ≤ n + 1 → |fadeOutSeq s k - (1 - (k : ℚ) * (1 / (n : ℚ)))| ≤ (k : ℚ) / 2 ^ 22 := by
  have hn : (1 : ℚ) ≤ (n : ℚ) := by exact_mod_cast h1
  have hB0 : (0 : ℚ) < 1 / (n : ℚ) := by positivity
  have hB1 : 1 / (n : ℚ) ≤ 1 := by
    rw [div_le_one (by linarith)]
    exact hn
  have hnB : (n : ℚ) * (1 / (n : ℚ)) = 1 := by
    field_simp
  intro k
  induction k with
  | zero =>
    intro _
    simp [fadeOutSeq]
  | succ k ih =>
    intro hk
    have ih1 := ih (by omega)
    have hkn : (k : ℚ) ≤ (n : ℚ) := by exact_mod_cast (by omega : k ≤ n)
    have hk200 : (k : ℚ) ≤ 200 := by exact_mod_cast (by omega : k ≤ 200)
    have hk0 : (0 : ℚ) ≤ (k : ℚ) := Nat.cast_nonneg k
    have hA0 : 0 ≤ (k : ℚ) * (1 / (n : ℚ)) := mul_nonneg hk0 (le_of_lt hB0)
    have hA1 : (k : ℚ) * (1 / (n : ℚ)) ≤ 1 := by
      have := mul_le_mul_of_nonneg_right hkn (le_of_lt hB0)
      linarith
    show |f32 (fadeOutSeq s k - s) - (1 - ((k + 1 : Nat) : ℚ) * (1 / (n : ℚ)))|
      ≤ ((k + 1 : Nat) : ℚ) / 2 ^ 22
    push_cast
    have hr := f32_abs_sub_le (fadeOutSeq s k - s)
    rw [abs_le] at ih1 hs
    have hy : |fadeOutSeq s k - s| ≤ 2 := by
      rw [abs_le]
      constructor <;> linarith [ih1.1, ih1.2, hs.1, hs.2]
    have hr2 : |f32 (fadeOutSeq s k - s) - (fadeOutSeq s k - s)| ≤ 2 / 2 ^ 24 :=
      le_trans hr (div_le_div_of_nonneg_right hy (by positivity))
    rw [abs_le] at hr2 ⊢
    constructor <;> linarith [ih1.1, ih1.2, hs.1, hs.2, hr2.1, hr2.2]

theorem fadeInSeq_near (m : Nat) (s : ℚ) (h1 : 1 ≤ m) (h2 : m ≤ 1000)
    (hs : |s - 1 / (m : ℚ)| ≤ 1 / 2 ^ 24) :
    ∀ k : Nat, k ≤ m + 1 → |fadeInSeq s k - (k : ℚ) * (1 / (m : ℚ))| ≤ (k : ℚ) / 2 ^ 22 := by
  have hm : (1 : ℚ) ≤ (m : ℚ) := by exact_mod_cast h1
  have hB0 : (0 : ℚ) < 1 / (m : ℚ) := by positivity
  have hB1 : 1 / (m : ℚ) ≤ 1 := by
    rw [div_le_one (by linarith)]
    exact hm
  have hmB : (m : ℚ) * (1 / (m : ℚ)) = 1 := by
    field_simp
  intro k
  induction k with
  | zero =>
    intro _
    simp [fadeInSeq]
  | succ k ih =>
    intro hk
    have ih1 := ih (by omega)
    have hkm : (k : ℚ) ≤ (m : ℚ) := by exact_mod_cast (by omega : k ≤ m)
    have hk1000 : (k : ℚ) ≤ 1000 := by exact_mod_cast (by omega : k ≤ 1000)
    have hk0 : (0 : ℚ) ≤ (k : ℚ) := Nat.cast_nonneg k
    have hA0 : 0 ≤ (k : ℚ) * (1 / (m : ℚ)) := mul_nonneg hk0 (le_of_lt hB0)
    have hA1 : (k : ℚ) * (1 / (m : ℚ)) ≤ 1 := by
      have := mul_le_mul_of_nonneg_right hkm (le_of_lt hB0)
      linarith
    show |f32 (fadeInSeq s k + s) - ((k + 1 : Nat) : ℚ) * (1 / (m : ℚ))|
      ≤ ((k + 1 : Nat) : ℚ) / 2 ^ 22
    push_cast
    have hr := f32_abs_sub_le (fadeInSeq s k + s)
    rw [abs_le] at ih1 hs
    have hy : |fadeInSeq s k + s| ≤ 2 + 1 / 2 ^ 11 := by
      rw [abs_le]
      constructor <;> linarith [ih1.1, ih1.2, hs.1, hs.2]
    have hr2 : |f32 (fadeInSeq s k + s) - (fadeInSeq s k + s)| ≤ (2 + 1 / 2 ^ 11) / 2 ^ 24 :=
      le_trans hr (div_le_div_of_nonneg_right hy (by positivity))
    rw [abs_le] at hr2 ⊢
    constructor <;> linarith [ih1.1, ih1.2, hs.1, hs.2, hr2.1, hr2.2]

/-! ## ME ducking -/

theorem meWatchTick_notPlaying_me_playing (audioSleep : Nat) (p : AudioPrivate)
    (hst : p.state = MeWatchState.MeNotPlaying) (hme : p.me.state = State.Playing) :
    meWatchTick audioSleep p =
      some { p with
        bgmTracks := p.bgmTracks.map (fun t => { t with extPaused := true })
        state := MeWatchState.BgmFadingOut } := by
  unfold meWatchTick
  rw [hst]
  simp only [hme, if_true]

theorem meWatchRun_one (audioSleep : Nat) (p : AudioPrivate) :
    meWatchRun audioSleep 1 p = meWatchTick audioSleep p := by
  cases h : meWatchTick audioSleep p <;> simp [meWatchRun, h]

theorem fadeOutStep_facts (audioSleep : Nat) (hn : 1 ≤ 200 / audioSleep) :
    |fadeOutStep audioSleep - 1 / ((200 / audioSleep : Nat) : ℚ)| ≤ 1 / 2 ^ 24 ∧
      0 < fadeOutStep audioSleep ∧ fadeOutStep audioSleep ≤ 1 :=
  floatStep_facts (200 / audioSleep) hn
    (le_trans (Nat.div_le_self 200 audioSleep) (by norm_num))

theorem fadeOutSeq_le_one (s : ℚ) (hs : 0 ≤ s) : ∀ k : Nat, fadeOutSeq s k ≤ 1 := by
  intro k
  induction k with
  | zero => exact le_refl 1
  | succ k ih =>
    show f32 (fadeOutSeq s k - s) ≤ 1
    have := f32_mono (by linarith : fadeOutSeq s k - s ≤ 1)
    rwa [f32_one] at this

/-- The ducked run while the `float` differences stay nonnegative: after the detecting tick
and `k` `BgmFadingOut` ticks every track is at `fadeOutSeq step k`. -/
theorem fadingOut_run (audioSleep : Nat) (p : AudioPrivate) (hne : p.bgmTracks ≠ [])
    (hst : p.state = MeWatchState.MeNotPlaying) (hme : p.me.state = State.Playing)
    (htr : ∀ t ∈ p.bgmTracks, t.state = State.Playing ∧ t.ext = 1) :
    ∀ k : Nat, (∀ j : Nat, j ≤ k → 0 ≤ fadeOutSeq (fadeOutStep audioSleep) j) →
      meWatchRun audioSleep (1 + k) p =
        some { p with
          bgmTracks := p.bgmTracks.map
            (fun t => { t with
              extPaused := true, ext := fadeOutSeq (fadeOutStep audioSleep) k })
          state := MeWatchState.BgmFadingOut } := by
  have hfirst := meWatchTick_notPlaying_me_playing audioSleep p hst hme
  have hplaying : ∀ t ∈ p.bgmTracks, t.state = State.Playing := fun t ht => (htr t ht).1
  intro k
  induction k with
  | zero =>
    intro _
    rw [show 1 + 0 = 1 from rfl, meWatchRun_one, hfirst]
    congr 2
    apply List.map_congr_left
    intro t ht
    simp [fadeOutSeq, (htr t ht).2]
  | succ k ih =>
    intro h
    have hrun := ih (fun j hj => h j (by omega))
    rw [show 1 + (k + 1) = (1 + k) + 1 from rfl, meWatchRun_succ, hrun]
    simp only [Option.bind]
    exact (fadingOut_uniform_tick audioSleep p (fadeOutSeq (fadeOutStep audioSleep) k)
      hne hme hplaying).1 (h (k + 1) le_rfl)

/-- The tick on which the `float` difference first turns negative settles every track. -/
theorem fadingOut_settle (audioSleep : Nat) (p : AudioPrivate) (hne : p.bgmTracks ≠ [])
    (hst : p.state = MeWatchState.MeNotPlaying) (hme : p.me.state = State.Playing)
    (htr : ∀ t ∈ p.bgmTracks, t.state = State.Playing ∧ t.ext = 1) (k : Nat)
    (h : ∀ j : Nat, j ≤ k → 0 ≤ fadeOutSeq (fadeOutStep audioSleep) j)
    (hneg : fadeOutSeq (fadeOutStep audioSleep) (k + 1) < 0) :
    meWatchRun audioSleep (1 + (k + 1)) p =
      some { p with
        bgmTracks := p.bgmTracks.map
          (fun t => { t with
            extPaused := true, ext := 0, state := State.Paused
            issued := t.issued ++ [Command.streamPause] })
        state := MeWatchState.MePlaying } := by
  rw [show 1 + (k + 1) = (1 + k) + 1 from rfl, meWatchRun_succ,
    fadingOut_run audioSleep p hne hst hme htr k h]
  simp only [Option.bind]
  exact (fadingOut_uniform_tick audioSleep p (fadeOutSeq (fadeOutStep audioSleep) k)
    hne hme (fun t ht => (htr t ht).1)).2 hneg

/-- The fade-out sequence for `n = 200 / AUDIO_SLEEP`: nonnegative before index `n`, and
negative at index `n + 1` at the latest. -/
theorem fadeOutSeq_sign (n : Nat) (s : ℚ) (h1 : 1 ≤ n) (h2 : n ≤ 200)
    (hs : |s - 1 / (n : ℚ)| ≤ 1 / 2 ^ 24) :
    (∀ k : Nat, k < n → 0 ≤ fadeOutSeq s k) ∧ fadeOutSeq s (n + 1) < 0 := by
  have hnear := fadeOutSeq_near n s h1 h2 hs
  have hn : (1 : ℚ) ≤ (n : ℚ) := by exact_mod_cast h1
  have hn200 : (n : ℚ) ≤ 200 := by exact_mod_cast h2
  have hB0 : (0 : ℚ) < 1 / (n : ℚ) := by positivity
  have hB : (1 : ℚ) / 200 ≤ 1 / (n : ℚ) :=
    one_div_le_one_div_of_le (by linarith) hn200
  have hnB : (n : ℚ) * (1 / (n : ℚ)) = 1 := by
    field_simp
  constructor
  · intro k hk
    have h := hnear k (by omega)
    rw [abs_le] at h
    have hk1 : ((k : ℚ) + 1) ≤ (n : ℚ) := by exact_mod_cast hk
    have hk200 : (k : ℚ) ≤ 200 := by linarith
    have hmul : ((k : ℚ) + 1) * (1 / (n : ℚ)) ≤ 1 := by
      have := mul_le_mul_of_nonneg_right hk1 (le_of_lt hB0)
      linarith
    linarith [h.1]
  · have h := hnear n (by omega)
    rw [abs_le] at h hs
    show f32 (fadeOutSeq s n - s) < 0
    rw [f32_neg_iff]
    linarith [h.2, hs.1]

theorem fadeOutStep_ten : fadeOutStep 10 = 13421773 / 2 ^ 28 := by
  unfold fadeOutStep
  rw [f32_natCast (200 / 10) (by norm_num)]
  unfold f32
  rw [@roundSig_eval 24 (1 / ((200 / 10 : Nat) : ℚ)) (-5) 13421773 (by norm_num) (by norm_num)
    (by norm_num) (by norm_num [abs_lt])]
  norm_num

theorem fadeOutSeq_ten_one : fadeOutSeq (fadeOutStep 10) 1 = 15938355 / 2 ^ 24 := by
  simp only [fadeOutSeq]
  rw [fadeOutStep_ten]
  unfold f32
  rw [@roundSig_eval 24 (1 - 13421773 / 2 ^ 28) (-1) 15938355 (by norm_num) (by norm_num)
    (by norm_num) (by norm_num [abs_lt])]
  norm_num

/-- C6 (as stated, at a concrete input): with `AUDIO_SLEEP = 10` (`n = 20`) on two tracks
Playing at `External = 1`, the first `BgmFadingOut` tick leaves every `External` at the
`float` `15938355 / 2 ^ 24`, which is not `1 - 1 / 20`: the decrease is not exactly
`step = 1 / n`. -/
theorem C6_exact_step_refuted :
    meWatchRun 10 (1 + 1) duckingStart =
        some { duckingStart with
          bgmTracks := duckingStart.bgmTracks.map
            (fun t => { t with extPaused := true, ext := 15938355 / 2 ^ 24 })
          state := MeWatchState.BgmFadingOut } ∧
      (15938355 / 2 ^ 24 : ℚ) ≠ 1 - 1 / ((200 / 10 : Nat) : ℚ) := by
  refine ⟨?_, by norm_num⟩
  have hnonneg : ∀ j : Nat, j ≤ 1 → 0 ≤ fadeOutSeq (fadeOutStep 10) j := by
    intro j hj
    interval_cases j
    · exact zero_le_one
    · rw [fadeOutSeq_ten_one]
      norm_num
  rw [fadingOut_run 10 duckingStart (by simp [duckingStart]) rfl rfl
    (by simp [duckingStart, sampleTrack, AudioStream.fresh]) 1 hnonneg, fadeOutSeq_ten_one]

/-- C6 (amended): let `n = 200 / AUDIO_SLEEP ≥ 1` and `step = fadeOutStep`, the `float`
quotient `1.f / n` (within `2 ^ (-24)` of `1 / n`). From watcher state NotPlaying with a
non-empty track set, every track Playing at `External = 1`, and the ME stream Playing
throughout (no facade call, no engine event): the first tick sets every `extPaused` and
enters `BgmFadingOut`; there is a number `K` of `BgmFadingOut` ticks, `n ≤ K ≤ n + 1`, such
that after `k < K` of them every `External` is `fadeOutSeq step k` (each tick stores the
`float` difference of the previous value and `step`), which is nonnegative, within
`k / 2 ^ 22` of `1 - k / n`, and followed by a difference within `2 ^ (-23)` of one exact
step `1 / n` below it, the tracks still Playing; the `K`-th difference is negative, and
after `K` `BgmFadingOut` ticks every `External` is 0, every stream has received a pause and
is Paused, and the state is `MePlaying`. -/
theorem C6_me_ducking_trace (audioSleep : Nat) (p : AudioPrivate)
    (hn : 1 ≤ 200 / audioSleep) (hne : p.bgmTracks ≠ [])
    (hst : p.state = MeWatchState.MeNotPlaying) (hme : p.me.state = State.Playing)
    (htr : ∀ t ∈ p.bgmTracks, t.state = State.Playing ∧ t.ext = 1) :
    meWatchRun audioSleep 1 p =
        some { p with
          bgmTracks := p.bgmTracks.map (fun t => { t with extPaused := true })
          state := MeWatchState.BgmFadingOut } ∧
      |fadeOutStep audioSleep - 1 / ((200 / audioSleep : Nat) : ℚ)| ≤ 1 / 2 ^ 24 ∧
      ∃ K : Nat, 200 / audioSleep ≤ K ∧ K ≤ 200 / audioSleep + 1 ∧
        (∀ k : Nat, k < K →
          0 ≤ fadeOutSeq (fadeOutStep audioSleep) k ∧
          |fadeOutSeq (fadeOutStep audioSleep) k
              - (1 - (k : ℚ) * (1 / ((200 / audioSleep : Nat) : ℚ)))| ≤ (k : ℚ) / 2 ^ 22 ∧
          |fadeOutSeq (fadeOutStep audioSleep) (k + 1)
              - (fadeOutSeq (fadeOutStep audioSleep) k - 1 / ((200 / audioSleep : Nat) : ℚ))|
            ≤ 1 / 2 ^ 23 ∧
          meWatchRun audioSleep (1 + k) p =
            some { p with
              bgmTracks := p.bgmTracks.map
                (fun t => { t with
                  extPaused := true, ext := fadeOutSeq (fadeOutStep audioSleep) k })
              state := MeWatchState.BgmFadingOut }) ∧
        fadeOutSeq (fadeOutStep audioSleep) K < 0 ∧
        meWatchRun audioSleep (1 + K) p =
          some { p with
            bgmTracks := p.bgmTracks.map
              (fun t => { t with
                extPaused := true, ext := 0, state := State.Paused
                issued := t.issued ++ [Command.streamPause] })
            state := MeWatchState.MePlaying } := by
  have hfirst := meWatchTick_notPlaying_me_playing audioSleep p hst hme
  have hn200 : 200 / audioSleep ≤ 200 := Nat.div_le_self 200 audioSleep
  obtain ⟨hs, hs0, hs1⟩ := fadeOutStep_facts audioSleep hn
  have hnear := fadeOutSeq_near (200 / audioSleep) (fadeOutStep audioSleep) hn hn200 hs
  obtain ⟨hpos, hlast⟩ := fadeOutSeq_sign (200 / audioSleep) (fadeOutStep audioSleep) hn hn200 hs
  have hle1 := fadeOutSeq_le_one (fadeOutStep audioSleep) (le_of_lt hs0)
  have hstep : ∀ k : Nat, 0 ≤ fadeOutSeq (fadeOutStep audioSleep) k →
      |fadeOutSeq (fadeOutStep audioSleep) (k + 1)
          - (fadeOutSeq (fadeOutStep audioSleep) k - 1 / ((200 / audioSleep : Nat) : ℚ))|
        ≤ 1 / 2 ^ 23 := by
    intro k hk
    show |f32 (fadeOutSeq (fadeOutStep audioSleep) k - fadeOutStep audioSleep)
        - (fadeOutSeq (fadeOutStep audioSleep) k - 1 / ((200 / audioSleep : Nat) : ℚ))|
      ≤ 1 / 2 ^ 23
    have hr := f32_abs_sub_le (fadeOutSeq (fadeOutStep audioSleep) k - fadeOutStep audioSleep)
    have hy : |fadeOutSeq (fadeOutStep audioSleep) k - fadeOutStep audioSleep| ≤ 1 := by
      rw [abs_le]
      constructor <;> linarith [hle1 k]
    have hr2 := le_trans hr (div_le_div_of_nonneg_right hy (by positivity))
    have hs2 := hs
    rw [abs_le] at hr2 hs2 ⊢
    constructor <;> linarith [hr2.1, hr2.2, hs2.1, hs2.2]
  refine ⟨by rw [meWatchRun_one, hfirst], hs, ?_⟩
  by_cases hlastpos : 0 ≤ fadeOutSeq (fadeOutStep audioSleep) (200 / audioSleep)
  · have hall : ∀ j : Nat, j ≤ 200 / audioSleep → 0 ≤ fadeOutSeq (fadeOutStep audioSleep) j := by
      intro j hj
      rcases Nat.lt_or_eq_of_le hj with h | h
      · exact hpos j h
      · rw [h]
        exact hlastpos
    refine ⟨200 / audioSleep + 1, by omega, le_refl _, ?_, hlast,
      fadingOut_settle audioSleep p hne hst hme htr _ hall hlast⟩
    intro k hk
    have hk2 : k ≤ 200 / audioSleep := by omega
    exact ⟨hall k hk2, hnear k (by omega), hstep k (hall k hk2),
      fadingOut_run audioSleep p hne hst hme htr k (fun j hj => hall j (by omega))⟩
  · obtain ⟨n1, hn1⟩ : ∃ n1 : Nat, 200 / audioSleep = n1 + 1 := ⟨200 / audioSleep - 1, by omega⟩
    have hneg : fadeOutSeq (fadeOutStep audioSleep) (200 / audioSleep) < 0 := not_le.mp hlastpos
    refine ⟨200 / audioSleep, le_refl _, by omega, ?_, hneg, ?_⟩
    · intro k hk
      exact ⟨hpos k hk, hnear k (by omega), hstep k (hpos k hk),
        fadingOut_run audioSleep p hne hst hme htr k (fun j hj => hpos j (by omega))⟩
    · rw [hn1] at hneg hpos ⊢
      exact fadingOut_settle audioSleep p hne hst hme htr n1
        (fun j hj => hpos j (by omega)) hneg

/-- Witness of C6 with `AUDIO_SLEEP = 10` (so `n = 20`) on two tracks. -/
theorem C6_me_ducking_trace_witness :
    1 ≤ 200 / 10 ∧ duckingStart.bgmTracks ≠ [] ∧
      duckingStart.state = MeWatchState.MeNotPlaying ∧
      duckingStart.me.state = State.Playing ∧
      (∀ t ∈ duckingStart.bgmTracks, t.state = State.Playing ∧ t.ext = 1) ∧
      meWatchRun 10 1 duckingStart =
        some { duckingStart with
          bgmTracks := duckingStart.bgmTracks.map (fun t => { t with extPaused := true })
          state := MeWatchState.BgmFadingOut } :=
  ⟨by decide, by simp [duckingStart], rfl, rfl,
    by simp [duckingStart, sampleTrack, AudioStream.fresh],
    (C6_me_ducking_trace 10 duckingStart (by decide) (by simp [duckingStart]) rfl rfl
      (by simp [duckingStart, sampleTrack, AudioStream.fresh])).1⟩

/-! ## Rounding on a binary grid -/

theorem roundHalfEven_natDiv (A D : Nat) (hD : 0 < D) :
    roundHalfEven ((A : ℚ) / (D : ℚ)) = (roundNatDiv A D : Int) := by
  have hDq : (0 : ℚ) < (D : ℚ) := by exact_mod_cast hD
  have hfloor : ⌊(A : ℚ) / (D : ℚ)⌋ = ((A / D : Nat) : Int) := by
    rw [Rat.floor_natCast_div_natCast]
    norm_cast
  have hsplit : (A : ℚ) = (D : ℚ) * ((A / D : Nat) : ℚ) + ((A % D : Nat) : ℚ) := by
    exact_mod_cast (Nat.div_add_mod A D).symm
  have hfrac : (A : ℚ) / (D : ℚ) - (((A / D : Nat) : Int) : ℚ) = ((A % D : Nat) : ℚ) / (D : ℚ) := by
    rw [Int.cast_natCast]
    field_simp
    linarith
  have hlt : ((A % D : Nat) : ℚ) / (D : ℚ) < 1 / 2 ↔ 2 * (A % D) < D := by
    rw [div_lt_iff₀ hDq]
    constructor
    · intro h
      have : (2 : ℚ) * ((A % D : Nat) : ℚ) < (D : ℚ) := by linarith
      exact_mod_cast this
    · intro h
      have : (2 : ℚ) * ((A % D : Nat) : ℚ) < (D : ℚ) := by exact_mod_cast h
      linarith
  have hgt : 1 / 2 < ((A % D : Nat) : ℚ) / (D : ℚ) ↔ D < 2 * (A % D) := by
    rw [lt_div_iff₀ hDq]
    constructor
    · intro h
      have : (D : ℚ) < (2 : ℚ) * ((A % D : Nat) : ℚ) := by linarith
      exact_mod_cast this
    · intro h
      have : (D : ℚ) < (2 : ℚ) * ((A % D : Nat) : ℚ) := by exact_mod_cast h
      linarith
  have heven : ((A / D : Nat) : Int) % 2 = 0 ↔ (A / D) % 2 = 0 := by
    omega
  unfold roundHalfEven roundNatDiv
  rw [hfloor, hfrac]
  by_cases h1 : 2 * (A % D) < D
  · rw [if_pos (hlt.mpr h1), if_pos h1]
  · rw [if_neg (fun h => h1 (hlt.mp h)), if_neg h1]
    by_cases h2 : D < 2 * (A % D)
    · rw [if_pos (hgt.mpr h2), if_pos h2]
      norm_cast
    · rw [if_neg (fun h => h2 (hgt.mp h)), if_neg h2]
      by_cases h3 : (A / D) % 2 = 0
      · rw [if_pos (heven.mpr h3), if_pos h3]
      · rw [if_neg (fun h => h3 (heven.mp h)), if_neg h3]
        norm_cast

theorem f32_grid_direct (Y sh : Nat) (j : Int) (h1 : 2 ^ (23 + sh) ≤ Y)
    (h2 : Y < 2 ^ (24 + sh)) :
    f32 ((Y : ℚ) * (2 : ℚ) ^ j) = ((roundNatDiv Y (2 ^ sh) * 2 ^ sh : Nat) : ℚ) * (2 : ℚ) ^ j := by
  have hj : (0 : ℚ) < (2 : ℚ) ^ j := by positivity
  have hY : (0 : ℚ) < (Y : ℚ) := by
    have : 0 < Y := lt_of_lt_of_le (by positivity) h1
    exact_mod_cast this
  have hx : (0 : ℚ) < (Y : ℚ) * (2 : ℚ) ^ j := mul_pos hY hj
  have hlo : (2 : ℚ) ^ ((23 + sh : Nat) + j : Int) ≤ (Y : ℚ) * (2 : ℚ) ^ j := by
    rw [zpow_add₀ (by norm_num : (2 : ℚ) ≠ 0), zpow_natCast]
    have : ((2 : ℚ) ^ (23 + sh)) ≤ (Y : ℚ) := by exact_mod_cast h1
    exact mul_le_mul_of_nonneg_right this (le_of_lt hj)
  have hhi : (Y : ℚ) * (2 : ℚ) ^ j < (2 : ℚ) ^ (((23 + sh : Nat) + j : Int) + 1) := by
    have e : (((23 + sh : Nat) + j : Int) + 1) = ((24 + sh : Nat) : Int) + j := by
      push_cast
      ring
    rw [e, zpow_add₀ (by norm_num : (2 : ℚ) ≠ 0), zpow_natCast]
    have : (Y : ℚ) < ((2 : ℚ) ^ (24 + sh)) := by exact_mod_cast h2
    exact mul_lt_mul_of_pos_right this hj
  have hlog := log_two_eq_of_bounds hx hlo hhi
  have hulp : ulp 24 ((Y : ℚ) * (2 : ℚ) ^ j) = ((2 ^ sh : Nat) : ℚ) * (2 : ℚ) ^ j := by
    unfold ulp
    rw [hlog]
    have e : (((23 + sh : Nat) + j : Int) - (24 : Nat) + 1) = (sh : Int) + j := by
      push_cast
      ring
    rw [e, zpow_add₀ (by norm_num : (2 : ℚ) ≠ 0), zpow_natCast]
    norm_cast
  have hdiv : (Y : ℚ) * (2 : ℚ) ^ j / (((2 ^ sh : Nat) : ℚ) * (2 : ℚ) ^ j)
      = (Y : ℚ) / ((2 ^ sh : Nat) : ℚ) := by
    have : (((2 ^ sh : Nat) : ℚ)) ≠ 0 := by positivity
    field_simp
    ring
  unfold f32
  rw [roundSig_of_nonneg 24 (le_of_lt hx), roundPos_of_pos 24 hx, hulp, hdiv,
    roundHalfEven_natDiv Y (2 ^ sh) (by positivity)]
  push_cast
  ring

theorem f32GridAux_correct (j : Int) :
    ∀ (fuel sh Y : Nat), 2 ^ (23 + sh) ≤ Y → Y < 2 ^ (24 + sh + fuel) →
      f32 ((Y : ℚ) * (2 : ℚ) ^ j) = ((f32GridAux fuel sh Y : Nat) : ℚ) * (2 : ℚ) ^ j := by
  intro fuel
  induction fuel with
  | zero =>
    intro sh Y h1 h2
    exact f32_grid_direct Y sh j h1 h2
  | succ fuel ih =>
    intro sh Y h1 h2
    unfold f32GridAux
    by_cases h : Y < 2 ^ (24 + sh)
    · rw [if_pos h]
      exact f32_grid_direct Y sh j h1 h
    · rw [if_neg h]
      apply ih (sh + 1) Y
      · have e : 23 + (sh + 1) = 24 + sh := by omega
        rw [e]
        exact not_lt.mp h
      · have e : 24 + (sh + 1) + fuel = 24 + sh + (fuel + 1) := by omega
        rw [e]
        exact h2

/-- The `float` nearest to `Y * 2 ^ j` is `f32Grid Y * 2 ^ j`. -/
theorem f32_grid (Y : Nat) (j : Int) :
    f32 ((Y : ℚ) * (2 : ℚ) ^ j) = ((f32Grid Y : Nat) : ℚ) * (2 : ℚ) ^ j := by
  unfold f32Grid
  by_cases h : Y < 2 ^ 24
  · rw [if_pos h]
    have h1 : (Y : Int) < 2 ^ 24 := by exact_mod_cast h
    have h2 : |(Y : Int)| < 2 ^ 24 := by
      rw [abs_lt]
      constructor
      · have : (0 : Int) ≤ (Y : Int) := Int.natCast_nonneg Y
        linarith
      · exact h1
    have := @roundSig_dyadic 24 (Y : Int) j h2
    rw [Int.cast_natCast] at this
    exact this
  · rw [if_neg h]
    apply f32GridAux_correct j Y 1 Y
    · exact not_lt.mp h
    · calc Y < 2 ^ Y := Nat.lt_two_pow Y
        _ ≤ 2 ^ (24 + 1 + Y) := Nat.pow_le_pow_right (by norm_num) (by omega)

theorem fadeInSeq_grid (S : Nat) (j : Int) :
    ∀ k : Nat, fadeInSeq ((S : ℚ) * (2 : ℚ) ^ j) k = ((fadeInGrid S k : Nat) : ℚ) * (2 : ℚ) ^ j := by
  intro k
  induction k with
  | zero => simp [fadeInSeq, fadeInGrid]
  | succ k ih =>
    show f32 (fadeInSeq ((S : ℚ) * (2 : ℚ) ^ j) k + (S : ℚ) * (2 : ℚ) ^ j)
      = ((f32Grid (fadeInGrid S k + S) : Nat) : ℚ) * (2 : ℚ) ^ j
    rw [ih, ← add_mul, ← Nat.cast_add, f32_grid]

/-! ## Fade-in -/

theorem mePlayingLoop_fst (l : List AudioStream) (st : MeWatchState) :
    (mePlayingLoop l st).1 = l.map (fun t => (mePlayingBody t).1) := by
  induction l generalizing st with
  | nil => rfl
  | cons t rest ih => simp [mePlayingLoop, ih]

theorem mePlayingLoop_snd (l : List AudioStream) (st : MeWatchState) :
    (mePlayingLoop l st).2 =
      match l.getLast? with
      | none => st
      | some t => (mePlayingBody t).2 := by
  induction l generalizing st with
  | nil => rfl
  | cons t rest ih =>
    simp only [mePlayingLoop]
    rw [ih]
    cases rest with
    | nil => rfl
    | cons u us =>
      rw [List.getLast?_cons_cons, List.getLast?_eq_getLast (u :: us) (List.cons_ne_nil u us)]

theorem meWatchTick_mePlaying (audioSleep : Nat) (p : AudioPrivate)
    (hst : p.state = MeWatchState.MePlaying) (hme : p.me.state ≠ State.Playing) :
    meWatchTick audioSleep p =
      some { p with
        bgmTracks := p.bgmTracks.map (fun t => (mePlayingBody t).1)
        state :=
          match p.bgmTracks.getLast? with
          | none => MeWatchState.MePlaying
          | some t => (mePlayingBody t).2 } := by
  unfold meWatchTick
  rw [hst]
  simp only [hme, ne_eq, not_false_eq_true, if_true, mePlayingLoop_fst, mePlayingLoop_snd]

theorem meWatchTick_fadingIn_step (audioSleep : Nat) (p : AudioPrivate) (t0 : AudioStream)
    (rest : List AudioStream) (hst : p.state = MeWatchState.BgmFadingIn)
    (htracks : p.bgmTracks = t0 :: rest) (h0 : t0.state ≠ State.Stopped)
    (hme : p.me.state ≠ State.Playing) :
    meWatchTick audioSleep p =
      some { p with
        bgmTracks := p.bgmTracks.map (fun t =>
          { t with ext := if f32 (t0.ext + fadeInStep audioSleep) ≥ 1 then 1
                          else f32 (t0.ext + fadeInStep audioSleep) })
        state :=
          if f32 (t0.ext + fadeInStep audioSleep) ≥ 1 then MeWatchState.MeNotPlaying
          else MeWatchState.BgmFadingIn } := by
  unfold meWatchTick
  rw [hst]
  simp only [htracks, h0, hme, if_false, AudioStream.getVolume, AudioStream.setVolume]
  by_cases hc : f32 (t0.ext + fadeInStep audioSleep) ≥ 1
  · simp [hc]
  · simp [hc, hst]

theorem mePlaying_all_paused_state (l : List AudioStream) (hne : l ≠ [])
    (hp : ∀ t ∈ l, t.state = State.Paused) :
    (match l.getLast? with
      | none => MeWatchState.MePlaying
      | some t => (mePlayingBody t).2) = MeWatchState.BgmFadingIn := by
  rw [List.getLast?_eq_getLast l hne]
  have := hp _ (List.getLast_mem hne)
  simp [mePlayingBody, this]

/-- One `BgmFadingIn` tick on a resumed track set whose tracks are all at the same
`External` value `e`, the ME stream not Playing: every track moves to the `float` sum
`e + step`, clamped to 1, and the watcher returns to `MeNotPlaying` when the clamp
applies. -/
theorem fadingIn_uniform_tick (audioSleep : Nat) (p : AudioPrivate) (e : ℚ)
    (hne : p.bgmTracks ≠ []) (hme : p.me.state ≠ State.Playing) :
    meWatchTick audioSleep
        { p with
          bgmTracks := p.bgmTracks.map
            (fun t => { t with
              extPaused := false, state := State.Playing
              issued := t.issued ++ [Command.streamPlay], ext := e })
          state := MeWatchState.BgmFadingIn } =
      some { p with
        bgmTracks := p.bgmTracks.map
          (fun t => { t with
            extPaused := false, state := State.Playing
            issued := t.issued ++ [Command.streamPlay]
            ext := if f32 (e + fadeInStep audioSleep) ≥ 1 then 1
                   else f32 (e + fadeInStep audioSleep) })
        state :=
          if f32 (e + fadeInStep audioSleep) ≥ 1 then MeWatchState.MeNotPlaying
          else MeWatchState.BgmFadingIn } := by
  obtain ⟨a, as, has⟩ := List.exists_cons_of_ne_nil hne
  have h := meWatchTick_fadingIn_step audioSleep
    { p with
      bgmTracks := p.bgmTracks.map
        (fun t => { t with
          extPaused := false, state := State.Playing
          issued := t.issued ++ [Command.streamPlay], ext := e })
      state := MeWatchState.BgmFadingIn }
    ({ a with
        extPaused := false, state := State.Playing
        issued := a.issued ++ [Command.streamPlay], ext := e })
    (as.map (fun t => { t with
        extPaused := false, state := State.Playing
        issued := t.issued ++ [Command.streamPlay], ext := e }))
    rfl (by simp [has]) (by simp) hme
  rw [h]
  simp only [List.map_map]
  rfl

theorem fadeInStep_facts (audioSleep : Nat) (hm : 1 ≤ 1000 / audioSleep) :
    |fadeInStep audioSleep - 1 / ((1000 / audioSleep : Nat) : ℚ)| ≤ 1 / 2 ^ 24 ∧
      0 < fadeInStep audioSleep ∧ fadeInStep audioSleep ≤ 1 :=
  floatStep_facts (1000 / audioSleep) hm (Nat.div_le_self 1000 audioSleep)

theorem meWatchTick_mePlaying_all_paused (audioSleep : Nat) (p : AudioPrivate)
    (hne : p.bgmTracks ≠ []) (hst : p.state = MeWatchState.MePlaying)
    (hme : p.me.state ≠ State.Playing)
    (htr : ∀ t ∈ p.bgmTracks, t.state = State.Paused ∧ t.ext = 0) :
    meWatchTick audioSleep p =
      some { p with
        bgmTracks := p.bgmTracks.map
          (fun t => { t with
            extPaused := false, state := State.Playing
            issued := t.issued ++ [Command.streamPlay] })
        state := MeWatchState.BgmFadingIn } := by
  rw [meWatchTick_mePlaying audioSleep p hst hme,
    mePlaying_all_paused_state p.bgmTracks hne (fun t ht => (htr t ht).1)]
  congr 2
  apply List.map_congr_left
  intro t ht
  simp [mePlayingBody, (htr t ht).1, AudioStream.streamPlay]

/-- The resumed run while the `float` sums stay below 1: after the resuming tick and `k`
`BgmFadingIn` ticks every track is at `fadeInSeq step k`. -/
theorem fadingIn_run (audioSleep : Nat) (p : AudioPrivate) (hne : p.bgmTracks ≠ [])
    (hst : p.state = MeWatchState.MePlaying) (hme : p.me.state ≠ State.Playing)
    (htr : ∀ t ∈ p.bgmTracks, t.state = State.Paused ∧ t.ext = 0) :
    ∀ k : Nat, (∀ j : Nat, j ≤ k → fadeInSeq (fadeInStep audioSleep) j < 1) →
      meWatchRun audioSleep (1 + k) p =
        some { p with
          bgmTracks := p.bgmTracks.map
            (fun t => { t with
              extPaused := false, state := State.Playing
              issued := t.issued ++ [Command.streamPlay]
              ext := fadeInSeq (fadeInStep audioSleep) k })
          state := MeWatchState.BgmFadingIn } := by
  have hfirst := meWatchTick_mePlaying_all_paused audioSleep p hne hst hme htr
  intro k
  induction k with
  | zero =>
    intro _
    rw [show 1 + 0 = 1 from rfl, meWatchRun_one, hfirst]
    congr 2
    apply List.map_congr_left
    intro t ht
    simp [fadeInSeq, (htr t ht).2]
  | succ k ih =>
    intro h
    have hrun := ih (fun j hj => h j (by omega))
    rw [show 1 + (k + 1) = (1 + k) + 1 from rfl, meWatchRun_succ, hrun]
    simp only [Option.bind]
    rw [fadingIn_uniform_tick audioSleep p _ hne hme]
    have hlt : ¬ (f32 (fadeInSeq (fadeInStep audioSleep) k + fadeInStep audioSleep) ≥ 1) :=
      not_le.mpr (h (k + 1) le_rfl)
    simp only [if_neg hlt]
    rfl

/-- The tick on which the `float` sum first reaches 1 ends the fade-in. -/
theorem fadingIn_finish (audioSleep : Nat) (p : AudioPrivate) (hne : p.bgmTracks ≠ [])
    (hst : p.state = MeWatchState.MePlaying) (hme : p.me.state ≠ State.Playing)
    (htr : ∀ t ∈ p.bgmTracks, t.state = State.Paused ∧ t.ext = 0) (k : Nat)
    (h : ∀ j : Nat, j ≤ k → fadeInSeq (fadeInStep audioSleep) j < 1)
    (hfull : 1 ≤ fadeInSeq (fadeInStep audioSleep) (k + 1)) :
    meWatchRun audioSleep (1 + (k + 1)) p =
      some { p with
        bgmTracks := p.bgmTracks.map
          (fun t => { t with
            extPaused := false, state := State.Playing
            issued := t.issued ++ [Command.streamPlay], ext := 1 })
        state := MeWatchState.MeNotPlaying } := by
  rw [show 1 + (k + 1) = (1 + k) + 1 from rfl, meWatchRun_succ,
    fadingIn_run audioSleep p hne hst hme htr k h]
  simp only [Option.bind]
  rw [fadingIn_uniform_tick audioSleep p _ hne hme]
  have hge : f32 (fadeInSeq (fadeInStep audioSleep) k + fadeInStep audioSleep) ≥ 1 := hfull
  simp only [if_pos hge]

/-- The fade-in sequence for `m = 1000 / AUDIO_SLEEP`: below 1 before index `m`, and at
least 1 at index `m + 1` at the latest. -/
theorem fadeInSeq_reach (m : Nat) (s : ℚ) (h1 : 1 ≤ m) (h2 : m ≤ 1000)
    (hs : |s - 1 / (m : ℚ)| ≤ 1 / 2 ^ 24) :
    (∀ k : Nat, k < m → fadeInSeq s k < 1) ∧ 1 ≤ fadeInSeq s (m + 1) := by
  have hnear := fadeInSeq_near m s h1 h2 hs
  have hm : (1 : ℚ) ≤ (m : ℚ) := by exact_mod_cast h1
  have hm1000 : (m : ℚ) ≤ 1000 := by exact_mod_cast h2
  have hB0 : (0 : ℚ) < 1 / (m : ℚ) := by positivity
  have hB : (1 : ℚ) / 1000 ≤ 1 / (m : ℚ) :=
    one_div_le_one_div_of_le (by linarith) hm1000
  have hmB : (m : ℚ) * (1 / (m : ℚ)) = 1 := by
    field_simp
  constructor
  · intro k hk
    have h := hnear k (by omega)
    rw [abs_le] at h
    have hk1 : ((k : ℚ) + 1) ≤ (m : ℚ) := by exact_mod_cast hk
    have hk1000 : (k : ℚ) ≤ 1000 := by linarith
    have hmul : ((k : ℚ) + 1) * (1 / (m : ℚ)) ≤ 1 := by
      have := mul_le_mul_of_nonneg_right hk1 (le_of_lt hB0)
      linarith
    linarith [h.2]
  · have h := hnear m (by omega)
    rw [abs_le] at h hs
    show 1 ≤ f32 (fadeInSeq s m + s)
    have hge : (1 : ℚ) ≤ fadeInSeq s m + s := by linarith [h.1, hs.1]
    have := f32_mono hge
    rwa [f32_one] at this

theorem fadeInStep_ten : fadeInStep 10 = ((10737418 : Nat) : ℚ) * (2 : ℚ) ^ (-30 : Int) := by
  unfold fadeInStep
  rw [f32_natCast (1000 / 10) (by norm_num)]
  unfold f32
  rw [@roundSig_eval 24 (1 / ((1000 / 10 : Nat) : ℚ)) (-7) 10737418 (by norm_num) (by norm_num)
    (by norm_num) (by norm_num [abs_lt])]
  norm_num

theorem fadeInGrid_ten_below : ∀ k : Nat, k ≤ 100 → fadeInGrid 10737418 k < 2 ^ 30 := by
  decide

set_option maxRecDepth 100000 in
theorem fadeInGrid_ten_hundred : fadeInGrid 10737418 100 = 1073741120 := by
  decide

theorem fadeInSeq_ten (k : Nat) :
    fadeInSeq (fadeInStep 10) k = ((fadeInGrid 10737418 k : Nat) : ℚ) / 2 ^ 30 := by
  rw [fadeInStep_ten, fadeInSeq_grid 10737418 (-30) k]
  norm_num
  ring

/-- C7 (as stated, at a concrete input): with `AUDIO_SLEEP = 10` (`m = 100`) on two tracks
Paused at `External = 0`, after the resuming tick and `m = 100` `BgmFadingIn` ticks the
watcher is still in `BgmFadingIn` and every `External` is the `float`
`1073741120 / 2 ^ 30`, below 1, where the claim has `NotPlaying` and `External = 1`. -/
theorem C7_exact_trace_refuted :
    meWatchRun 10 (1 + 1000 / 10) fadeInStart =
        some { fadeInStart with
          bgmTracks := fadeInStart.bgmTracks.map
            (fun t => { t with
              extPaused := false, state := State.Playing
              issued := t.issued ++ [Command.streamPlay]
              ext := 1073741120 / 2 ^ 30 })
          state := MeWatchState.BgmFadingIn } ∧
      (1073741120 / 2 ^ 30 : ℚ) < 1 := by
  refine ⟨?_, by norm_num⟩
  have hlt : ∀ j : Nat, j ≤ 100 → fadeInSeq (fadeInStep 10) j < 1 := by
    intro j hj
    rw [fadeInSeq_ten j, div_lt_one (by positivity)]
    exact_mod_cast fadeInGrid_ten_below j hj
  have hval : fadeInSeq (fadeInStep 10) 100 = 1073741120 / 2 ^ 30 := by
    rw [fadeInSeq_ten 100, fadeInGrid_ten_hundred]
    norm_num
  rw [show 1 + 1000 / 10 = 1 + 100 from rfl,
    fadingIn_run 10 fadeInStart (by simp [fadeInStart]) rfl (by decide)
      (by simp [fadeInStart, sampleTrack, AudioStream.fresh]) 100 hlt, hval]

/-- C7 (amended): let `m = 1000 / AUDIO_SLEEP ≥ 1` and `step = fadeInStep`, the `float`
quotient `1.f / m` (within `2 ^ (-24)` of `1 / m`). From watcher state `MePlaying` with a
non-empty track set, every track's stream Paused at `External = 0`, and the ME stream not
Playing throughout (no facade call, no engine event, so the primary track is never
Stopped): the first tick issues play to every track, clears every `extPaused` and enters
`BgmFadingIn`; there is a number `K` of further ticks, `m ≤ K ≤ m + 1`, such that after
`k < K` of them the state is `BgmFadingIn` and every track's `External` is
`fadeInSeq step k` (each tick stores the `float` sum of the primary's value and `step`),
which is below 1 and within `k / 2 ^ 22` of `k / m`; the `K`-th sum is at least 1, and after
`K` further ticks the state is `MeNotPlaying` with every `External = 1`. -/
theorem C7_fade_in_trace (audioSleep : Nat) (p : AudioPrivate)
    (hm : 1 ≤ 1000 / audioSleep) (hne : p.bgmTracks ≠ [])
    (hst : p.state = MeWatchState.MePlaying) (hme : p.me.state ≠ State.Playing)
    (htr : ∀ t ∈ p.bgmTracks, t.state = State.Paused ∧ t.ext = 0) :
    meWatchRun audioSleep 1 p =
        some { p with
          bgmTracks := p.bgmTracks.map
            (fun t => { t with
              extPaused := false, state := State.Playing
              issued := t.issued ++ [Command.streamPlay] })
          state := MeWatchState.BgmFadingIn } ∧
      |fadeInStep audioSleep - 1 / ((1000 / audioSleep : Nat) : ℚ)| ≤ 1 / 2 ^ 24 ∧
      ∃ K : Nat, 1000 / audioSleep ≤ K ∧ K ≤ 1000 / audioSleep + 1 ∧
        (∀ k : Nat, k < K →
          fadeInSeq (fadeInStep audioSleep) k < 1 ∧
          |fadeInSeq (fadeInStep audioSleep) k
              - (k : ℚ) * (1 / ((1000 / audioSleep : Nat) : ℚ))| ≤ (k : ℚ) / 2 ^ 22 ∧
          meWatchRun audioSleep (1 + k) p =
            some { p with
              bgmTracks := p.bgmTracks.map
                (fun t => { t with
                  extPaused := false, state := State.Playing
                  issued := t.issued ++ [Command.streamPlay]
                  ext := fadeInSeq (fadeInStep audioSleep) k })
              state := MeWatchState.BgmFadingIn }) ∧
        1 ≤ fadeInSeq (fadeInStep audioSleep) K ∧
        meWatchRun audioSleep (1 + K) p =
          some { p with
            bgmTracks := p.bgmTracks.map
              (fun t => { t with
                extPaused := false, state := State.Playing
                issued := t.issued ++ [Command.streamPlay], ext := 1 })
            state := MeWatchState.MeNotPlaying } := by
  have hfirst := meWatchTick_mePlaying_all_paused audioSleep p hne hst hme htr
  have hm1000 : 1000 / audioSleep ≤ 1000 := Nat.div_le_self 1000 audioSleep
  obtain ⟨hs, _, _⟩ := fadeInStep_facts audioSleep hm
  have hnear := fadeInSeq_near (1000 / audioSleep) (fadeInStep audioSleep) hm hm1000 hs
  obtain ⟨hbelow, hlast⟩ :=
    fadeInSeq_reach (1000 / audioSleep) (fadeInStep audioSleep) hm hm1000 hs
  refine ⟨by rw [meWatchRun_one, hfirst], hs, ?_⟩
  by_cases hlastlt : fadeInSeq (fadeInStep audioSleep) (1000 / audioSleep) < 1
  · have hall : ∀ j : Nat, j ≤ 1000 / audioSleep → fadeInSeq (fadeInStep audioSleep) j < 1 := by
      intro j hj
      rcases Nat.lt_or_eq_of_le hj with h | h
      · exact hbelow j h
      · rw [h]
        exact hlastlt
    refine ⟨1000 / audioSleep + 1, by omega, le_refl _, ?_, hlast,
      fadingIn_finish audioSleep p hne hst hme htr _ hall hlast⟩
    intro k hk
    have hk2 : k ≤ 1000 / audioSleep := by omega
    exact ⟨hall k hk2, hnear k (by omega),
      fadingIn_run audioSleep p hne hst hme htr k (fun j hj => hall j (by omega))⟩
  · obtain ⟨m1, hm1⟩ : ∃ m1 : Nat, 1000 / audioSleep = m1 + 1 :=
      ⟨1000 / audioSleep - 1, by omega⟩
    have hfull : 1 ≤ fadeInSeq (fadeInStep audioSleep) (1000 / audioSleep) := not_lt.mp hlastlt
    refine ⟨1000 / audioSleep, le_refl _, by omega, ?_, hfull, ?_⟩
    · intro k hk
      exact ⟨hbelow k hk, hnear k (by omega),
        fadingIn_run audioSleep p hne hst hme htr k (fun j hj => hbelow j (by omega))⟩
    · rw [hm1] at hfull hbelow ⊢
      exact fadingIn_finish audioSleep p hne hst hme htr m1
        (fun j hj => hbelow j (by omega)) hfull

/-- Witness of C7 with `AUDIO_SLEEP = 10` (so `m = 100`) on two tracks. -/
theorem C7_fade_in_trace_witness :
    1 ≤ 1000 / 10 ∧ fadeInStart.bgmTracks ≠ [] ∧
      fadeInStart.state = MeWatchState.MePlaying ∧
      fadeInStart.me.state ≠ State.Playing ∧
      (∀ t ∈ fadeInStart.bgmTracks, t.state = State.Paused ∧ t.ext = 0) ∧
      meWatchRun 10 1 fadeInStart =
        some { fadeInStart with
          bgmTracks := fadeInStart.bgmTracks.map
            (fun t => { t with
              extPaused := false, state := State.Playing
              issued := t.issued ++ [Command.streamPlay] })
          state := MeWatchState.BgmFadingIn } :=
  ⟨by decide, by simp [fadeInStart], rfl, by decide,
    by simp [fadeInStart, sampleTrack, AudioStream.fresh],
    (C7_fade_in_trace 10 fadeInStart (by decide) (by simp [fadeInStart]) rfl (by decide)
      (by simp [fadeInStart, sampleTrack, AudioStream.fresh])).1⟩

/-! ## `MePlaying` and `BgmFadingIn` ticks -/

/-- C8: on a `MePlaying` tick with the ME stream not Playing, a track whose stream is
Stopped with `noResumeStop` set receives no command and stays Stopped, its `extPaused`
is cleared and its `External` set to 1; a Stopped track with `noResumeStop` clear
receives play in addition; and when the track set is non-empty and every track is
Stopped with `noResumeStop` set, the watcher state after the tick is `MeNotPlaying`. -/
theorem C8_noResumeStop_honoured (audioSleep : Nat) (p : AudioPrivate)
    (hst : p.state = MeWatchState.MePlaying) (hme : p.me.state ≠ State.Playing) :
    ∃ q, meWatchTick audioSleep p = some q ∧
      q.bgmTracks.length = p.bgmTracks.length ∧
      (∀ (i : Nat) (t : AudioStream), p.bgmTracks.get? i = some t → t.state = State.Stopped →
        (t.noResumeStop = true →
          q.bgmTracks.get? i = some { t with extPaused := false, ext := 1 }) ∧
        (t.noResumeStop = false →
          q.bgmTracks.get? i =
            some { t with
              extPaused := false, ext := 1, state := State.Playing
              issued := t.issued ++ [Command.streamPlay] })) ∧
      (p.bgmTracks ≠ [] →
        (∀ t ∈ p.bgmTracks, t.state = State.Stopped ∧ t.noResumeStop = true) →
        q.state = MeWatchState.MeNotPlaying) := by
  refine ⟨_, meWatchTick_mePlaying audioSleep p hst hme, by simp, ?_, ?_⟩
  · intro i t hget hstopped
    have hq : (p.bgmTracks.map (fun t => (mePlayingBody t).1)).get? i
        = some (mePlayingBody t).1 := by
      simp only [List.get?_eq_getElem?] at hget
      simp [hget]
    constructor
    · intro hnr
      simp only [hq]
      simp [mePlayingBody, hstopped, hnr, AudioStream.setVolume]
    · intro hnr
      simp only [hq]
      simp [mePlayingBody, hstopped, hnr, AudioStream.setVolume, AudioStream.streamPlay]
  · intro hne hall
    simp only
    rw [List.getLast?_eq_getLast _ hne]
    have := hall _ (List.getLast_mem hne)
    simp [mePlayingBody, this.1]

/-- Witness of C8 on a single Stopped track with `noResumeStop` set. -/
theorem C8_noResumeStop_honoured_witness :
    stoppedStart.state = MeWatchState.MePlaying ∧ stoppedStart.me.state ≠ State.Playing ∧
      ∃ q, meWatchTick 10 stoppedStart = some q ∧ q.state = MeWatchState.MeNotPlaying := by
  obtain ⟨q, hq, _, _, hstate⟩ :=
    C8_noResumeStop_honoured 10 stoppedStart rfl (by decide)
  exact ⟨rfl, by decide, q, hq,
    hstate (by simp [stoppedStart])
      (by simp [stoppedStart, sampleTrack, AudioStream.fresh])⟩

/-- C9: on a `BgmFadingIn` tick in which the primary track reports Stopped, every track's
`External` becomes 1 and the watcher state becomes `MeNotPlaying`, whatever the other
tracks' playback states and `External` values and whatever the ME stream's state;
`extPaused`, `Base` and the playback state of every track are as before the tick. -/
theorem C9_interrupted_fade_in (audioSleep : Nat) (p : AudioPrivate) (primary : AudioStream)
    (rest : List AudioStream) (hst : p.state = MeWatchState.BgmFadingIn)
    (htracks : p.bgmTracks = primary :: rest) (h0 : primary.state = State.Stopped) :
    meWatchTick audioSleep p =
      some { p with
        bgmTracks := p.bgmTracks.map (fun t => { t with ext := 1 })
        state := MeWatchState.MeNotPlaying } := by
  unfold meWatchTick
  rw [hst]
  simp only [htracks, h0, if_true, AudioStream.setVolume]

/-- Witness of C9: the second track is Playing and the ME stream is Playing as well. -/
theorem C9_interrupted_fade_in_witness :
    interruptedStart.state = MeWatchState.BgmFadingIn ∧
      interruptedStart.bgmTracks =
        sampleTrack State.Stopped (1 / 2) :: [sampleTrack State.Playing (1 / 2)] ∧
      (sampleTrack State.Stopped (1 / 2)).state = State.Stopped ∧
      meWatchTick 10 interruptedStart =
        some { interruptedStart with
          bgmTracks := interruptedStart.bgmTracks.map (fun t => { t with ext := 1 })
          state := MeWatchState.MeNotPlaying } :=
  ⟨rfl, rfl, rfl,
    C9_interrupted_fade_in 10 interruptedStart (sampleTrack State.Stopped (1 / 2))
      [sampleTrack State.Playing (1 / 2)] rfl rfl rfl⟩

/-- C10: on a `BgmFadingIn` tick in which the primary track is not Stopped and the ME
stream reports Playing, the watcher state becomes `BgmFadingOut` (the only state written
in that tick), every track's `extPaused` becomes true, and every track's `External`, like
every other field, is as before the tick. -/
theorem C10_me_retrigger (audioSleep : Nat) (p : AudioPrivate) (primary : AudioStream)
    (rest : List AudioStream) (hst : p.state = MeWatchState.BgmFadingIn)
    (htracks : p.bgmTracks = primary :: rest) (h0 : primary.state ≠ State.Stopped)
    (hme : p.me.state = State.Playing) :
    meWatchTick audioSleep p =
      some { p with
        bgmTracks := p.bgmTracks.map (fun t => { t with extPaused := true })
        state := MeWatchState.BgmFadingOut } := by
  unfold meWatchTick
  rw [hst]
  simp only [htracks, h0, hme, if_true, if_false]

/-- Witness of C10 with the primary track Playing and the second track Paused. -/
theorem C10_me_retrigger_witness :
    retriggerStart.state = MeWatchState.BgmFadingIn ∧
      retriggerStart.bgmTracks =
        sampleTrack State.Playing (1 / 2) :: [sampleTrack State.Paused (1 / 2)] ∧
      (sampleTrack State.Playing (1 / 2)).state ≠ State.Stopped ∧
      retriggerStart.me.state = State.Playing ∧
      meWatchTick 10 retriggerStart =
        some { retriggerStart with
          bgmTracks := retriggerStart.bgmTracks.map (fun t => { t with extPaused := true })
          state := MeWatchState.BgmFadingOut } :=
  ⟨rfl, rfl, by decide, rfl,
    C10_me_retrigger 10 retriggerStart (sampleTrack State.Playing (1 / 2))
      [sampleTrack State.Paused (1 / 2)] rfl rfl (by decide) rfl⟩

/-! ## `BgmFadingOut` and `MePlaying` ticks on mixed track sets -/

theorem settles_iff (step : ℚ) (t : AudioStream) :
    settles step t ↔ (t.ext - step < 0 ∨ t.state ≠ State.Playing) := by
  unfold settles
  rw [f32_neg_iff]
  rfl

/-- C11: on a `BgmFadingOut` tick with the ME stream Playing and a non-empty track set
(`200 / AUDIO_SLEEP ≥ 1`, so that the fade-out step is a finite `float`), call a track
settled when its `External` minus the fade-out step is negative or its stream is not
Playing; the `float` difference the code tests is negative exactly when the exact one is.
Each settled track ends the tick with `External = 0` and one pause issued (a Playing stream
is Paused afterwards, any other state is kept); each other track ends with `External`
decreased by the step, that is with the `float` difference `External - step` (nonnegative,
and within a relative `2 ^ (-24)` of the exact difference), and nothing issued; the watcher
state after the tick is `MePlaying` if and only if every track settled, and `BgmFadingOut`
otherwise. -/
theorem C11_fading_out_all_or_nothing (audioSleep : Nat) (p : AudioPrivate)
    (_hn : 1 ≤ 200 / audioSleep)
    (hst : p.state = MeWatchState.BgmFadingOut) (hme : p.me.state = State.Playing)
    (hne : p.bgmTracks ≠ []) :
    ∃ q, meWatchTick audioSleep p = some q ∧
      q.bgmTracks.length = p.bgmTracks.length ∧
      (∀ (i : Nat) (t : AudioStream), p.bgmTracks.get? i = some t →
        (f32 (t.getVolume VolumeType.External - fadeOutStep audioSleep) < 0
          ↔ t.ext - fadeOutStep audioSleep < 0) ∧
        ((t.ext - fadeOutStep audioSleep < 0 ∨ t.state ≠ State.Playing) →
          q.bgmTracks.get? i =
            some { t with
              ext := 0
              state := if t.state = State.Playing then State.Paused else t.state
              issued := t.issued ++ [Command.streamPause] }) ∧
        (¬ (t.ext - fadeOutStep audioSleep < 0 ∨ t.state ≠ State.Playing) →
          q.bgmTracks.get? i = some { t with ext := f32 (t.ext - fadeOutStep audioSleep) } ∧
            0 ≤ f32 (t.ext - fadeOutStep audioSleep) ∧
            |f32 (t.ext - fadeOutStep audioSleep) - (t.ext - fadeOutStep audioSleep)|
              ≤ |t.ext - fadeOutStep audioSleep| / 2 ^ 24)) ∧
      (q.state = MeWatchState.MePlaying ↔
        ∀ t ∈ p.bgmTracks, t.ext - fadeOutStep audioSleep < 0 ∨ t.state ≠ State.Playing) ∧
      (¬ (∀ t ∈ p.bgmTracks, t.ext - fadeOutStep audioSleep < 0 ∨ t.state ≠ State.Playing) →
        q.state = MeWatchState.BgmFadingOut) := by
  have hiff : (∀ t ∈ p.bgmTracks, settles (fadeOutStep audioSleep) t) ↔
      ∀ t ∈ p.bgmTracks, t.ext - fadeOutStep audioSleep < 0 ∨ t.state ≠ State.Playing :=
    ⟨fun h t ht => (settles_iff _ t).mp (h t ht), fun h t ht => (settles_iff _ t).mpr (h t ht)⟩
  refine ⟨_, meWatchTick_fadingOut audioSleep p hst hme, by simp, ?_, ?_, ?_⟩
  · intro i t hget
    have hq : (p.bgmTracks.map (fadeOutBody (fadeOutStep audioSleep))).get? i
        = some (fadeOutBody (fadeOutStep audioSleep) t) := by
      simp only [List.get?_eq_getElem?] at hget
      simp [hget]
    refine ⟨f32_neg_iff _, ?_, ?_⟩
    · intro hs
      simp only [hq]
      rw [fadeOutBody, if_pos ((settles_iff _ t).mpr hs)]
      rfl
    · intro hs
      refine ⟨?_, ?_, f32_abs_sub_le _⟩
      · simp only [hq]
        rw [fadeOutBody, if_neg (fun h => hs ((settles_iff _ t).mp h))]
        rfl
      · apply f32_nonneg
        by_contra hneg
        exact hs (Or.inl (not_le.mp hneg))
  · simp only
    by_cases hall : p.bgmTracks ≠ [] ∧
        ∀ t ∈ p.bgmTracks, settles (fadeOutStep audioSleep) t
    · rw [if_pos hall]
      exact ⟨fun _ => hiff.mp hall.2, fun _ => rfl⟩
    · rw [if_neg hall]
      constructor
      · intro h
        exact absurd h (by decide)
      · intro h
        exact absurd ⟨hne, hiff.mpr h⟩ hall
  · intro hnot
    simp only
    rw [if_neg (fun h => hnot (hiff.mp h.2))]

/-- Witness of C11 with `AUDIO_SLEEP = 10`: of three tracks the first does not settle, so
the state stays `BgmFadingOut`. -/
theorem C11_fading_out_all_or_nothing_witness :
    1 ≤ 200 / 10 ∧
      mixedFadeOut.state = MeWatchState.BgmFadingOut ∧ mixedFadeOut.me.state = State.Playing ∧
      mixedFadeOut.bgmTracks ≠ [] ∧
      ∃ q, meWatchTick 10 mixedFadeOut = some q ∧ q.state = MeWatchState.BgmFadingOut := by
  obtain ⟨q, hq, _, _, _, hstay⟩ :=
    C11_fading_out_all_or_nothing 10 mixedFadeOut (by decide) rfl rfl (by simp [mixedFadeOut])
  refine ⟨by decide, rfl, rfl, by simp [mixedFadeOut], q, hq, hstay ?_⟩
  intro hall
  have h := hall (sampleTrack State.Playing (1 / 2)) (by simp [mixedFadeOut])
  rw [fadeOutStep_ten] at h
  simp [sampleTrack, AudioStream.fresh] at h
  norm_num at h

/-- C12: on a `MePlaying` tick with a non-empty track set `front ++ [last]`, if the ME
stream is not Playing the watcher state after the tick is `BgmFadingIn` when the last
track's stream is Paused and `MeNotPlaying` otherwise, whatever the tracks in `front`
are; if the ME stream is Playing the tick changes nothing. -/
theorem C12_last_writer_wins (audioSleep : Nat) (p : AudioPrivate)
    (front : List AudioStream) (last : AudioStream)
    (hst : p.state = MeWatchState.MePlaying) (htracks : p.bgmTracks = front ++ [last]) :
    (p.me.state ≠ State.Playing →
      ∃ q, meWatchTick audioSleep p = some q ∧
        q.state =
          (if last.state = State.Paused then MeWatchState.BgmFadingIn
           else MeWatchState.MeNotPlaying)) ∧
    (p.me.state = State.Playing → meWatchTick audioSleep p = some p) := by
  constructor
  · intro hme
    refine ⟨_, meWatchTick_mePlaying audioSleep p hst hme, ?_⟩
    simp only [htracks, List.getLast?_concat]
    by_cases hp : last.state = State.Paused
    · simp [mePlayingBody, hp]
    · simp [mePlayingBody, hp]
  · intro hme
    unfold meWatchTick
    rw [hst]
    simp only [hme, ne_eq, not_true_eq_false, if_false]

/-- Witness of C12: the first track is Paused, the last is Stopped, and the state after
the tick is `MeNotPlaying`. -/
theorem C12_last_writer_wins_witness :
    disagreeingStart.state = MeWatchState.MePlaying ∧
      disagreeingStart.bgmTracks =
        [sampleTrack State.Paused 0] ++ [sampleTrack State.Stopped 0] ∧
      disagreeingStart.me.state ≠ State.Playing ∧
      ∃ q, meWatchTick 10 disagreeingStart = some q ∧
        q.state =
          (if (sampleTrack State.Stopped 0).state = State.Paused then MeWatchState.BgmFadingIn
           else MeWatchState.MeNotPlaying) :=
  ⟨rfl, rfl, by decide,
    (C12_last_writer_wins 10 disagreeingStart [sampleTrack State.Paused 0]
      (sampleTrack State.Stopped 0) rfl rfl).1 (by decide)⟩

/-! ## `External` stays in range -/

theorem fadeOutStep_nonneg (audioSleep : Nat) : 0 ≤ fadeOutStep audioSleep := by
  unfold fadeOutStep
  exact f32_nonneg (div_nonneg zero_le_one (f32_nonneg (Nat.cast_nonneg _)))

theorem fadeInStep_nonneg (audioSleep : Nat) : 0 ≤ fadeInStep audioSleep := by
  unfold fadeInStep
  exact f32_nonneg (div_nonneg zero_le_one (f32_nonneg (Nat.cast_nonneg _)))

theorem setStates_length (l : List AudioStream) (sts : List State) :
    (setStates l sts).length = l.length := by
  induction l generalizing sts with
  | nil => rfl
  | cons t ts ih =>
    cases sts with
    | nil => rfl
    | cons s ss => simp [setStates, ih]

theorem setStates_ext_range (l : List AudioStream) (sts : List State)
    (hr : ∀ t ∈ l, 0 ≤ t.ext ∧ t.ext ≤ 1) :
    ∀ t ∈ setStates l sts, 0 ≤ t.ext ∧ t.ext ≤ 1 := by
  induction l generalizing sts with
  | nil =>
    intro t ht
    simp [setStates] at ht
  | cons u us ih =>
    cases sts with
    | nil => exact hr
    | cons s ss =>
      intro t ht
      simp only [setStates, List.mem_cons] at ht
      rcases ht with rfl | ht
      · exact hr u (List.mem_cons_self _ _)
      · exact ih ss (fun v hv => hr v (List.mem_cons_of_mem _ hv)) t ht

theorem meWatchTick_defined (audioSleep : Nat) (p : AudioPrivate) (hne : p.bgmTracks ≠ []) :
    ∃ q, meWatchTick audioSleep p = some q := by
  obtain ⟨t0, rest, htr⟩ := List.exists_cons_of_ne_nil hne
  unfold meWatchTick
  cases p.state with
  | MeNotPlaying =>
    simp only
    split_ifs <;> exact ⟨_, rfl⟩
  | BgmFadingOut =>
    simp only
    split_ifs <;> exact ⟨_, rfl⟩
  | MePlaying =>
    simp only
    split_ifs <;> exact ⟨_, rfl⟩
  | BgmFadingIn =>
    simp only [htr]
    split_ifs <;> exact ⟨_, rfl⟩

theorem meWatchTick_ext_range (audioSleep : Nat) (p q : AudioPrivate)
    (hr : ∀ t ∈ p.bgmTracks, 0 ≤ t.ext ∧ t.ext ≤ 1)
    (h : meWatchTick audioSleep p = some q) :
    (∀ t ∈ q.bgmTracks, 0 ≤ t.ext ∧ t.ext ≤ 1) ∧
      q.bgmTracks.length = p.bgmTracks.length := by
  cases hs : p.state with
  | MeNotPlaying =>
    by_cases hme : p.me.state = State.Playing
    · rw [meWatchTick_notPlaying_me_playing audioSleep p hs hme] at h
      cases h
      refine ⟨?_, by simp⟩
      intro t ht
      obtain ⟨u, hu, rfl⟩ := List.mem_map.mp ht
      exact hr u hu
    · have hp : meWatchTick audioSleep p = some p := by
        unfold meWatchTick
        rw [hs]
        simp only [hme, if_false]
      rw [hp] at h
      cases h
      exact ⟨hr, rfl⟩
  | BgmFadingOut =>
    by_cases hme : p.me.state = State.Playing
    · rw [meWatchTick_fadingOut audioSleep p hs hme] at h
      cases h
      refine ⟨?_, by simp⟩
      intro t ht
      obtain ⟨u, hu, rfl⟩ := List.mem_map.mp ht
      have hu2 := hr u hu
      unfold fadeOutBody
      by_cases hset : settles (fadeOutStep audioSleep) u
      · rw [if_pos hset]
        simp [AudioStream.setVolume, AudioStream.streamPause]
      · rw [if_neg hset]
        have hnn : ¬ (f32 (u.ext - fadeOutStep audioSleep) < 0) := fun hlt => hset (Or.inl hlt)
        have hstep := fadeOutStep_nonneg audioSleep
        simp only [AudioStream.setVolume, AudioStream.getVolume]
        constructor
        · exact not_lt.mp hnn
        · have := f32_mono (by linarith [hu2.2] : u.ext - fadeOutStep audioSleep ≤ 1)
          rwa [f32_one] at this
    · have hp : meWatchTick audioSleep p =
          some { p with state := MeWatchState.BgmFadingIn } := by
        unfold meWatchTick
        rw [hs]
        simp only [hme, ne_eq, not_false_eq_true, if_true]
      rw [hp] at h
      cases h
      exact ⟨hr, rfl⟩
  | MePlaying =>
    by_cases hme : p.me.state = State.Playing
    · have hp : meWatchTick audioSleep p = some p := by
        unfold meWatchTick
        rw [hs]
        simp only [hme, ne_eq, not_true_eq_false, if_false]
      rw [hp] at h
      cases h
      exact ⟨hr, rfl⟩
    · rw [meWatchTick_mePlaying audioSleep p hs hme] at h
      cases h
      refine ⟨?_, by simp⟩
      intro t ht
      obtain ⟨u, hu, rfl⟩ := List.mem_map.mp ht
      have hu2 := hr u hu
      unfold mePlayingBody
      by_cases hpa : u.state = State.Paused
      · simp only [hpa, if_true, AudioStream.streamPlay]
        exact hu2
      · simp only [hpa, if_false, AudioStream.setVolume]
        split_ifs <;> simp [AudioStream.streamPlay]
  | BgmFadingIn =>
    cases htr : p.bgmTracks with
    | nil =>
      simp [meWatchTick, hs, htr] at h
    | cons t0 rest =>
      by_cases h0 : t0.state = State.Stopped
      · have hp : meWatchTick audioSleep p =
            some { p with
              bgmTracks := p.bgmTracks.map (fun t => { t with ext := 1 })
              state := MeWatchState.MeNotPlaying } := by
          unfold meWatchTick
          rw [hs]
          simp only [htr, h0, if_true, AudioStream.setVolume]
        rw [hp] at h
        cases h
        refine ⟨?_, by simp [htr]⟩
        intro t ht
        obtain ⟨u, _, rfl⟩ := List.mem_map.mp ht
        simp
      · by_cases hme : p.me.state = State.Playing
        · have hp : meWatchTick audioSleep p =
              some { p with
                bgmTracks := p.bgmTracks.map (fun t => { t with extPaused := true })
                state := MeWatchState.BgmFadingOut } := by
            unfold meWatchTick
            rw [hs]
            simp only [htr, h0, hme, if_true, if_false]
          rw [hp] at h
          cases h
          refine ⟨?_, by simp [htr]⟩
          intro t ht
          obtain ⟨u, hu, rfl⟩ := List.mem_map.mp ht
          exact hr u hu
        · rw [meWatchTick_fadingIn_step audioSleep p t0 rest hs htr h0 hme] at h
          cases h
          refine ⟨?_, by simp [htr]⟩
          intro t ht
          obtain ⟨u, _, rfl⟩ := List.mem_map.mp ht
          have h02 := hr t0 (by rw [htr]; exact List.mem_cons_self _ _)
          have hstep := fadeInStep_nonneg audioSleep
          simp only
          split_ifs with hge
          · simp
          · exact ⟨f32_nonneg (by linarith [h02.1]), le_of_lt (not_le.mp hge)⟩

theorem runEvents_ext_range (audioSleep : Nat) (events : List WatchEvent) (p : AudioPrivate)
    (hne : p.bgmTracks ≠ []) (hr : ∀ t ∈ p.bgmTracks, 0 ≤ t.ext ∧ t.ext ≤ 1) :
    ∃ q, runEvents audioSleep events p = some q ∧
      ∀ t ∈ q.bgmTracks, 0 ≤ t.ext ∧ t.ext ≤ 1 := by
  induction events generalizing p with
  | nil => exact ⟨p, rfl, hr⟩
  | cons e es ih =>
    cases e with
    | tick =>
      obtain ⟨q, hq⟩ := meWatchTick_defined audioSleep p hne
      obtain ⟨hrq, hlen⟩ := meWatchTick_ext_range audioSleep p q hr hq
      have hneq : q.bgmTracks ≠ [] := by
        intro hnil
        apply hne
        rw [hnil] at hlen
        exact List.length_eq_zero.mp hlen.symm
      obtain ⟨r, hrun, hrr⟩ := ih q hneq hrq
      exact ⟨r, by simp only [runEvents, hq, Option.bind, hrun], hrr⟩
    | engine me sts =>
      have hnee : (engineEvent me sts p).bgmTracks ≠ [] := by
        intro hnil
        apply hne
        have hlen := setStates_length p.bgmTracks sts
        simp only [engineEvent] at hnil
        rw [hnil] at hlen
        exact List.length_eq_zero.mp hlen.symm
      obtain ⟨r, hrun, hrr⟩ :=
        ih (engineEvent me sts p) hnee (setStates_ext_range p.bgmTracks sts hr)
      exact ⟨r, by simp only [runEvents, hrun], hrr⟩

/-- C13: with fade steps `1 / n` and `1 / m` for `n = 200 / AUDIO_SLEEP ≥ 1` and
`m = 1000 / AUDIO_SLEEP ≥ 1`, on a non-empty track set in any watcher state, with any ME
state and any playback states of the tracks: if every track's `External` is in `[0,1]`
before a watcher tick, the tick is defined and every track's `External` is in `[0,1]`
after it; hence, starting with `External = 1` on every track, every sequence of watcher
ticks and engine events is defined and ends with every `External` in `[0,1]`. -/
theorem C13_external_in_range (audioSleep : Nat) (p : AudioPrivate)
    (hn : 1 ≤ 200 / audioSleep) (hm : 1 ≤ 1000 / audioSleep) (hne : p.bgmTracks ≠ []) :
    ((∀ t ∈ p.bgmTracks, 0 ≤ t.ext ∧ t.ext ≤ 1) →
      ∃ q, meWatchTick audioSleep p = some q ∧
        ∀ t ∈ q.bgmTracks, 0 ≤ t.ext ∧ t.ext ≤ 1) ∧
    ((∀ t ∈ p.bgmTracks, t.ext = 1) →
      ∀ events : List WatchEvent,
        ∃ q, runEvents audioSleep events p = some q ∧
          ∀ t ∈ q.bgmTracks, 0 ≤ t.ext ∧ t.ext ≤ 1) := by
  have _hpos : 0 < fadeOutStep audioSleep ∧ 0 < fadeInStep audioSleep :=
    ⟨(fadeOutStep_facts audioSleep hn).2.1, (fadeInStep_facts audioSleep hm).2.1⟩
  constructor
  · intro hr
    obtain ⟨q, hq⟩ := meWatchTick_defined audioSleep p hne
    exact ⟨q, hq, (meWatchTick_ext_range audioSleep p q hr hq).1⟩
  · intro hone events
    apply runEvents_ext_range audioSleep events p hne
    intro t ht
    rw [hone t ht]
    exact ⟨by norm_num, le_refl 1⟩

/-- Witness of C13 with `AUDIO_SLEEP = 10` on two tracks at `External = 1`, run through
a short stinger. -/
theorem C13_external_in_range_witness :
    1 ≤ 200 / 10 ∧ 1 ≤ 1000 / 10 ∧ duckingStart.bgmTracks ≠ [] ∧
      (∀ t ∈ duckingStart.bgmTracks, t.ext = 1) ∧
      ∃ q, runEvents 10 shortStinger duckingStart = some q ∧
        ∀ t ∈ q.bgmTracks, 0 ≤ t.ext ∧ t.ext ≤ 1 :=
  ⟨by decide, by decide, by simp [duckingStart],
    by simp [duckingStart, sampleTrack, AudioStream.fresh],
    (C13_external_in_range 10 duckingStart (by decide) (by decide)
      (by simp [duckingStart])).2
      (by simp [duckingStart, sampleTrack, AudioStream.fresh]) shortStinger⟩

/-! ## `extPaused` after a short stinger -/

/-- C14 (the code at the failing input): from the constructor's state with one track
(watcher `MeNotPlaying`, `extPaused` false), the ME starts while the track plays, one tick
sees it, the ME ends before the next tick, and two more ticks run: the watcher is back in
`MeNotPlaying` and the track's `extPaused` is still true. -/
theorem C14_extPaused_left_set :
    (AudioPrivate.init 1).state = MeWatchState.MeNotPlaying ∧
      (AudioPrivate.init 1).bgmTracks.map AudioStream.extPaused = [false] ∧
      (runEvents 10 shortStinger (AudioPrivate.init 1)).map
          (fun q => (q.state, q.bgmTracks.map AudioStream.extPaused))
        = some (MeWatchState.MeNotPlaying, [true]) := by
  refine ⟨rfl, rfl, ?_⟩
  have hge : f32 (1 + fadeInStep 10) ≥ 1 := by
    have := f32_mono (by linarith [fadeInStep_nonneg 10] : (1 : ℚ) ≤ 1 + fadeInStep 10)
    rwa [f32_one] at this
  simp [runEvents, shortStinger, engineEvent, setStates, AudioPrivate.init, AudioStream.fresh,
    meWatchTick, AudioStream.getVolume, AudioStream.setVolume, hge]

end Audio
